import Mathlib

/-!
# easyRegex: a cache of compiled regular expressions

A shallow embedding of `easyRegex.go`.  The package keeps one process-wide map
`regexMap : map[string]*regexp.Regexp` guarded by the read/write mutex
`regexMute`, fills it through `getRegexpObject` / `addRegexObject`, and offers
the three entry points `Match`, `MatchReader` and `MatchString`.

The regular-expression engine (Go's `regexp` package) is not part of the
package; it is a parameter of every definition below.
-/

namespace EasyRegex

/-! ## The external engine -/

/-- The regular-expression engine the package calls into.  `R` is the type of
compiled objects (the referents of a non-nil `*regexp.Regexp`), `E` the type of
non-nil `error` values and `Rd` the type of states of an `io.RuneReader`.

`Compile n s` is what `regexp.Compile(s)` returns when `n` calls of
`regexp.Compile` have been made before it: a pair `(rex, err)` in which `none`
stands for Go's `nil`.  The index lets the engine hand out a different object on
every call, as a Go `Compile` does with its freshly allocated pointer; an engine
that ignores the index is a deterministic function of the text.

`MatchReader r rd` returns the verdict together with the reader as the engine
leaves it. -/
structure Engine (R E Rd : Type) where
  Compile : Nat → String → Option R × Option E
  Match : R → List UInt8 → Bool
  MatchReader : R → Rd → Bool × Rd
  MatchString : R → String → Bool

/-! ## Program state -/

/-- What a call does that is visible from outside, in the order it does it:
the operations on `regexMute`, the accesses to `regexMap` and the calls into the
engine. -/
inductive Event where
  | RLock
  | RUnlock
  | Lock
  | Unlock
  | Read (s : String)
  | Write (s : String)
  | Compile (s : String)
  | Match
  | MatchReader
  | MatchString
  deriving DecidableEq, Repr

/-- The package-level variables.  `regexMap` is the Go map: a key may be absent,
present with a nil pointer (`some none`) or present with a compiled object
(`some (some r)`).  `trace` is the history of events since the process
started; `regexMute` itself carries no data and shows only through its events. -/
structure State (R : Type) where
  regexMap : Finmap (fun _ : String => Option R)
  trace : List Event

/-- The state at process start: `make(map[string]*regexp.Regexp)`, nothing done yet. -/
def State.init (R : Type) : State R :=
  { regexMap := ∅, trace := [] }

/-- The texts the engine was asked to compile, oldest first. -/
def compiles (tr : List Event) : List String :=
  tr.filterMap fun ev =>
    match ev with
    | Event.Compile s => some s
    | _ => none

/-- The number of calls of a match method of the engine recorded in a trace. -/
def matchCalls (tr : List Event) : Nat :=
  tr.countP fun ev =>
    match ev with
    | Event.Match => true
    | Event.MatchReader => true
    | Event.MatchString => true
    | _ => false

/-- The Go expression `regexMap[s]`: the stored pointer, and `nil` for an absent key. -/
def index {R : Type} (m : Finmap (fun _ : String => Option R)) (s : String) : Option R :=
  (m.lookup s).join

/-! ## The cache -/

/-- The function `addRegexObject`: compile `s`, then under the write lock store
the pointer that `Compile` returned, whatever it is, and return the pair. -/
def addRegexObject {R E Rd : Type} (eng : Engine R E Rd) (s : String) (st : State R) :
    (Option R × Option E) × State R :=
  let res := eng.Compile (compiles st.trace).length s
  let rex := res.1
  let err := res.2
  ((rex, err),
    { regexMap := st.regexMap.insert s rex
      trace := st.trace ++ [Event.Compile s, Event.Lock, Event.Write s, Event.Unlock] })

/-- The function `getRegexpObject`: read `regexMap[s]` under the read lock; a nil
pointer (absent key or stored nil) goes to `addRegexObject`, anything else is
returned with a nil error. -/
def getRegexpObject {R E Rd : Type} (eng : Engine R E Rd) (s : String) (st : State R) :
    (Option R × Option E) × State R :=
  let st1 : State R :=
    { st with trace := st.trace ++ [Event.RLock, Event.Read s, Event.RUnlock] }
  match index st.regexMap s with
  | none => addRegexObject eng s st1
  | some r => ((some r, none), st1)

/-! ## The entry points -/

/-- How a call of an entry point ends: it returns a pair `(bool, error)`, or it
panics on calling a method of a nil `*regexp.Regexp`. -/
inductive Ret (E : Type) where
  | ok (b : Bool) (err : Option E)
  | nilDeref
  deriving DecidableEq, Repr

/-- The function `Match` on a byte slice. -/
def Match {R E Rd : Type} (eng : Engine R E Rd) (pattern : String) (b : List UInt8)
    (st : State R) : Ret E × State R :=
  let got := getRegexpObject eng pattern st
  match got.1.2 with
  | some e => (Ret.ok false (some e), got.2)
  | none =>
    match got.1.1 with
    | none => (Ret.nilDeref, got.2)
    | some obj =>
      (Ret.ok (eng.Match obj b) none, { got.2 with trace := got.2.trace ++ [Event.Match] })

/-- The function `MatchReader` on a rune reader; the reader is returned as the
call leaves it. -/
def MatchReader {R E Rd : Type} (eng : Engine R E Rd) (pattern : String) (r : Rd)
    (st : State R) : Ret E × Rd × State R :=
  let got := getRegexpObject eng pattern st
  match got.1.2 with
  | some e => (Ret.ok false (some e), r, got.2)
  | none =>
    match got.1.1 with
    | none => (Ret.nilDeref, r, got.2)
    | some obj =>
      (Ret.ok (eng.MatchReader obj r).1 none, (eng.MatchReader obj r).2,
        { got.2 with trace := got.2.trace ++ [Event.MatchReader] })

/-- The function `MatchString` on a string. -/
def MatchString {R E Rd : Type} (eng : Engine R E Rd) (pattern : String) (s : String)
    (st : State R) : Ret E × State R :=
  let got := getRegexpObject eng pattern st
  match got.1.2 with
  | some e => (Ret.ok false (some e), got.2)
  | none =>
    match got.1.1 with
    | none => (Ret.nilDeref, got.2)
    | some obj =>
      (Ret.ok (eng.MatchString obj s) none,
        { got.2 with trace := got.2.trace ++ [Event.MatchString] })

/-! ## Sequences of calls -/

/-- One call into the package: the cache lookup itself or one of the three
entry points, with its arguments. -/
inductive Op (Rd : Type) where
  | getRegexpObject (s : String)
  | Match (pattern : String) (b : List UInt8)
  | MatchReader (pattern : String) (r : Rd)
  | MatchString (pattern : String) (s : String)

/-- The pattern text a call is made with. -/
def Op.pattern {Rd : Type} : Op Rd → String
  | Op.getRegexpObject s => s
  | Op.Match p _ => p
  | Op.MatchReader p _ => p
  | Op.MatchString p _ => p

/-- The state a call leaves behind. -/
def step {R E Rd : Type} (eng : Engine R E Rd) (st : State R) : Op Rd → State R
  | Op.getRegexpObject s => (getRegexpObject eng s st).2
  | Op.Match p b => (Match eng p b st).2
  | Op.MatchReader p r => (MatchReader eng p r st).2.2
  | Op.MatchString p s => (MatchString eng p s st).2

/-- The state after a list of calls made one after the other. -/
def run {R E Rd : Type} (eng : Engine R E Rd) (ops : List (Op Rd)) (st : State R) : State R :=
  ops.foldl (step eng) st

/-- A state the process can be in: the one some list of calls leads to from the
start. -/
def Reachable {R E Rd : Type} (eng : Engine R E Rd) (st : State R) : Prop :=
  ∃ ops : List (Op Rd), run eng ops (State.init R) = st

/-- Every stored pointer is the first component of an answer of the engine for
its key. -/
def FromCompile {R E Rd : Type} (eng : Engine R E Rd) (st : State R) : Prop :=
  ∀ (k : String) (v : Option R), st.regexMap.lookup k = some v → ∃ n, v = (eng.Compile n k).1

/-- The engine is a deterministic function of the text: its answer does not
depend on how many compilations came before. -/
def Deterministic {R E Rd : Type} (eng : Engine R E Rd) : Prop :=
  ∀ (n : Nat) (s : String), eng.Compile n s = eng.Compile 0 s

/-! ## The uncached reference

What the three entry points are meant to compute, without any cache: compile
the pattern afresh (as the `n`-th compilation), give `(false, e)` if that fails
with `e`, and otherwise the verdict of the engine on the compiled object. -/

/-- The reference for `Match`: no map, one fresh compilation. -/
def uncachedMatch {R E Rd : Type} (eng : Engine R E Rd) (n : Nat) (pattern : String)
    (b : List UInt8) : Ret E :=
  match eng.Compile n pattern with
  | (_, some e) => Ret.ok false (some e)
  | (some obj, none) => Ret.ok (eng.Match obj b) none
  | (none, none) => Ret.nilDeref

/-- The reference for `MatchReader`: no map, one fresh compilation; the reader is
returned as the call leaves it. -/
def uncachedMatchReader {R E Rd : Type} (eng : Engine R E Rd) (n : Nat) (pattern : String)
    (r : Rd) : Ret E × Rd :=
  match eng.Compile n pattern with
  | (_, some e) => (Ret.ok false (some e), r)
  | (some obj, none) => (Ret.ok (eng.MatchReader obj r).1 none, (eng.MatchReader obj r).2)
  | (none, none) => (Ret.nilDeref, r)

/-- The reference for `MatchString`: no map, one fresh compilation. -/
def uncachedMatchString {R E Rd : Type} (eng : Engine R E Rd) (n : Nat) (pattern : String)
    (s : String) : Ret E :=
  match eng.Compile n pattern with
  | (_, some e) => Ret.ok false (some e)
  | (some obj, none) => Ret.ok (eng.MatchString obj s) none
  | (none, none) => Ret.nilDeref

/-! ## A small concrete engine -/

/-- An engine for evaluating the definitions: every text but `"["` compiles, to
the pair of the call number and the text; a compiled text matches the inputs it
is a prefix of. -/
def demoEngine : Engine (Nat × String) String (List Char) where
  Compile := fun n s => if s = "[" then (none, some "missing closing ]") else (some (n, s), none)
  Match := fun r b => r.2.toUTF8.toList.isPrefixOf b
  MatchReader := fun r rd => (r.2.toList.isPrefixOf rd, rd.drop r.2.length)
  MatchString := fun r s => r.2.toList.isPrefixOf s.toList

/-- A deterministic engine for evaluating the definitions: every text but `"["`
compiles, to itself, whenever it is compiled; a compiled text matches the
inputs it is a prefix of. -/
def pureEngine : Engine String String (List Char) where
  Compile := fun _ s => if s = "[" then (none, some "missing closing ]") else (some s, none)
  Match := fun r b => r.toUTF8.toList.isPrefixOf b
  MatchReader := fun r rd => (r.toList.isPrefixOf rd, rd.drop r.length)
  MatchString := fun r s => r.toList.isPrefixOf s.toList

/-! ## What the engine promises -/

/-- What `regexp.Compile` promises about its two results: the object is nil
exactly when the error is not. -/
def CompileContract {R E Rd : Type} (eng : Engine R E Rd) : Prop :=
  ∀ (n : Nat) (s : String), (eng.Compile n s).1 = none ↔ (eng.Compile n s).2 ≠ none

/-! ## The locking discipline of a call -/

/-- What the calling goroutine holds of `regexMute`. -/
inductive Held where
  | free
  | shared
  | exclusive
  deriving DecidableEq, Repr

/-- One event of a call checked against what the goroutine holds: the map is
read only under the shared lock and written only under the exclusive lock, the
engine is called only with no lock held, a lock is taken only when none is held
and released only when held.  `none` means the event breaks this discipline. -/
def lockStep : Held → Event → Option Held
  | Held.free, Event.RLock => some Held.shared
  | Held.free, Event.Lock => some Held.exclusive
  | Held.free, Event.Compile _ => some Held.free
  | Held.free, Event.Match => some Held.free
  | Held.free, Event.MatchReader => some Held.free
  | Held.free, Event.MatchString => some Held.free
  | Held.shared, Event.Read _ => some Held.shared
  | Held.shared, Event.RUnlock => some Held.free
  | Held.exclusive, Event.Write _ => some Held.exclusive
  | Held.exclusive, Event.Unlock => some Held.free
  | _, _ => none

/-- A list of events checked from a given holding; the result is what is held at
the end. -/
def lockWalk : Held → List Event → Option Held
  | h, [] => some h
  | h, ev :: evs =>
    match lockStep h ev with
    | none => none
    | some h1 => lockWalk h1 evs

/-- The events of one call of `getRegexpObject`: what it appends to the trace. -/
def callEvents {R E Rd : Type} (eng : Engine R E Rd) (s : String) (st : State R) :
    List Event :=
  (getRegexpObject eng s st).2.trace.drop st.trace.length

/-! ## Concurrent calls of `getRegexpObject`

Several goroutines run `getRegexpObject(p)` at the same time.  A goroutine
advances by one of the actions the call is made of: an operation on
`regexMute`, an access to `regexMap`, or the call of `regexp.Compile`; the
actions of different goroutines interleave in any order that `regexMute`
permits. -/

/-- Where a goroutine stands in `getRegexpObject(s)` (and, after a miss, in
`addRegexObject(s)`), with the values of its local variables `rex` and `err`:

* `atRLock`: before `regexMute.RLock()`;
* `atRead`: holding the shared lock, before `rex = regexMap[s]`;
* `atRUnlock rex`: before `regexMute.RUnlock()`;
* `atCompile`: `rex == nil` was true, before `regexp.Compile(s)`;
* `atLock rex err`: before the call `regexMute.Lock()`;
* `inLock rex err`: inside `regexMute.Lock()`, waiting for the lock;
* `atWrite rex err`: holding the exclusive lock, before `regexMap[s] = rex`;
* `atUnlock rex err`: before `regexMute.Unlock()`;
* `done rex err`: returned `(rex, err)`. -/
inductive Pc (R E : Type) where
  | atRLock
  | atRead
  | atRUnlock (rex : Option R)
  | atCompile
  | atLock (rex : Option R) (err : Option E)
  | inLock (rex : Option R) (err : Option E)
  | atWrite (rex : Option R) (err : Option E)
  | atUnlock (rex : Option R) (err : Option E)
  | done (rex : Option R) (err : Option E)

/-- The goroutine is inside `Lock()`, waiting. -/
def Pc.waiting {R E : Type} : Pc R E → Bool
  | Pc.inLock _ _ => true
  | _ => false

/-- The goroutine holds the shared lock. -/
def Pc.holdsShared {R E : Type} : Pc R E → Bool
  | Pc.atRead => true
  | Pc.atRUnlock _ => true
  | _ => false

/-- The goroutine holds the exclusive lock. -/
def Pc.holdsExclusive {R E : Type} : Pc R E → Bool
  | Pc.atWrite _ _ => true
  | Pc.atUnlock _ _ => true
  | _ => false

/-- The call has returned. -/
def Pc.returned {R E : Type} : Pc R E → Bool
  | Pc.done _ _ => true
  | _ => false

/-- An upper bound on the number of actions the goroutine still has to do. -/
def Pc.rank {R E : Type} : Pc R E → Nat
  | Pc.atRLock => 8
  | Pc.atRead => 7
  | Pc.atRUnlock _ => 6
  | Pc.atCompile => 5
  | Pc.atLock _ _ => 4
  | Pc.inLock _ _ => 3
  | Pc.atWrite _ _ => 2
  | Pc.atUnlock _ _ => 1
  | Pc.done _ _ => 0

/-- The shared memory and the goroutines.  `regexMap` and `trace` are as in
`State`; `readers` are the goroutines holding `regexMute` shared, `writer` the
one holding it exclusively; `pc i` is where goroutine `i` stands. -/
structure Conf (R E : Type) where
  regexMap : Finmap (fun _ : String => Option R)
  trace : List Event
  readers : Finset Nat
  writer : Option Nat
  pc : Nat → Pc R E

/-- All goroutines are about to start, on the memory `st`, with `regexMute` free. -/
def Conf.init {R : Type} (E : Type) (st : State R) : Conf R E :=
  { regexMap := st.regexMap, trace := st.trace, readers := ∅, writer := none,
    pc := fun _ => Pc.atRLock }

/-- Some goroutine among the first `K` is waiting inside `Lock()`. -/
def writerWaiting {R E : Type} (K : Nat) (c : Conf R E) : Bool :=
  (List.range K).any fun j => (c.pc j).waiting

/-- What an attempt to let a goroutine do its next action gives: the next
configuration, nothing because the goroutine cannot advance now (it waits for
`regexMute`, has returned, or does not exist), or a run-time fault (unlocking a
lock that is not held). -/
inductive Outcome (α : Type) where
  | next (c : α)
  | blocked
  | fault

/-- The next action of goroutine `i` among `K` goroutines that all run
`getRegexpObject(p)`.

`RLock` succeeds only while no goroutine holds the exclusive lock; when a writer
is waiting it may in addition be held back, which `pol` decides (`sync.RWMutex`
lets a waiting writer block new readers).  `Lock` is acquired only while nobody
holds the lock in either mode.  The test `rex == nil`, which touches local
variables only, is made together with `RUnlock`; the map is read and written
in one action each, under the lock that guards it. -/
def stepThread {R E Rd : Type} (eng : Engine R E Rd) (pol : Conf R E → Bool) (K : Nat)
    (p : String) (i : Nat) (c : Conf R E) : Outcome (Conf R E) :=
  if i < K then
    match c.pc i with
    | Pc.atRLock =>
      if c.writer.isNone && !(writerWaiting K c && pol c) then
        Outcome.next
          { c with
            readers := insert i c.readers
            trace := c.trace ++ [Event.RLock]
            pc := Function.update c.pc i Pc.atRead }
      else Outcome.blocked
    | Pc.atRead =>
      Outcome.next
        { c with
          trace := c.trace ++ [Event.Read p]
          pc := Function.update c.pc i (Pc.atRUnlock (index c.regexMap p)) }
    | Pc.atRUnlock rex =>
      if i ∈ c.readers then
        Outcome.next
          { c with
            readers := c.readers.erase i
            trace := c.trace ++ [Event.RUnlock]
            pc := Function.update c.pc i
              (match rex with
                | none => Pc.atCompile
                | some r => Pc.done (some r) none) }
      else Outcome.fault
    | Pc.atCompile =>
      Outcome.next
        { c with
          trace := c.trace ++ [Event.Compile p]
          pc := Function.update c.pc i
            (Pc.atLock (eng.Compile (compiles c.trace).length p).1
              (eng.Compile (compiles c.trace).length p).2) }
    | Pc.atLock rex err =>
      Outcome.next { c with pc := Function.update c.pc i (Pc.inLock rex err) }
    | Pc.inLock rex err =>
      if c.writer.isNone && decide (c.readers = ∅) then
        Outcome.next
          { c with
            writer := some i
            trace := c.trace ++ [Event.Lock]
            pc := Function.update c.pc i (Pc.atWrite rex err) }
      else Outcome.blocked
    | Pc.atWrite rex err =>
      Outcome.next
        { c with
          regexMap := c.regexMap.insert p rex
          trace := c.trace ++ [Event.Write p]
          pc := Function.update c.pc i (Pc.atUnlock rex err) }
    | Pc.atUnlock rex err =>
      if c.writer = some i then
        Outcome.next
          { c with
            writer := none
            trace := c.trace ++ [Event.Unlock]
            pc := Function.update c.pc i (Pc.done rex err) }
      else Outcome.fault
    | Pc.done _ _ => Outcome.blocked
  else Outcome.blocked

/-- An interleaving: the goroutines named in the schedule do one action each, in
this order.  `none` when a goroutine is scheduled that cannot advance. -/
def exec {R E Rd : Type} (eng : Engine R E Rd) (pol : Conf R E → Bool) (K : Nat)
    (p : String) : List Nat → Conf R E → Option (Conf R E)
  | [], c => some c
  | i :: sched, c =>
    match stepThread eng pol K p i c with
    | Outcome.next c1 => exec eng pol K p sched c1
    | _ => none

/-- The number of actions the first `K` goroutines can still do, at most. -/
def remaining {R E : Type} (K : Nat) (c : Conf R E) : Nat :=
  ∑ i ∈ Finset.range K, (c.pc i).rank

/-- The local variables are those of a successful compilation: wherever the
goroutine carries a pair `(rex, err)`, `rex` is an object and `err` is nil. -/
def Pc.sound {R E : Type} : Pc R E → Bool
  | Pc.atLock rex err => rex.isSome && err.isNone
  | Pc.inLock rex err => rex.isSome && err.isNone
  | Pc.atWrite rex err => rex.isSome && err.isNone
  | Pc.atUnlock rex err => rex.isSome && err.isNone
  | Pc.done rex err => rex.isSome && err.isNone
  | _ => true

/-- The goroutine has seen an object under its key, or has stored one. -/
def Pc.sawObject {R E : Type} : Pc R E → Bool
  | Pc.atRUnlock (some _) => true
  | Pc.atUnlock _ _ => true
  | Pc.done _ _ => true
  | _ => false

/-- What holds of every configuration that `K` goroutines resolving `p` can
reach from the memory `st0`: `regexMute` is held by exactly the goroutines
standing between their lock and unlock operations, never exclusively and
shared at once; the local pairs are those of successful compilations; a
goroutine past an object leaves an object in the map under `p`; keys other
than `p` are untouched. -/
structure Inv {R E : Type} (K : Nat) (p : String) (st0 : State R) (c : Conf R E) : Prop where
  readers_iff : ∀ i, i ∈ c.readers ↔ i < K ∧ (c.pc i).holdsShared = true
  writer_iff : ∀ i, c.writer = some i ↔ i < K ∧ (c.pc i).holdsExclusive = true
  excl : c.writer ≠ none → c.readers = ∅
  locals : ∀ i, i < K → (c.pc i).sound = true
  stored : ∀ i, i < K → (c.pc i).sawObject = true → ∃ r, c.regexMap.lookup p = some (some r)
  frame : ∀ j, j ≠ p → c.regexMap.lookup j = st0.regexMap.lookup j
  entry : c.regexMap.lookup p = st0.regexMap.lookup p ∨
    ∃ r, c.regexMap.lookup p = some (some r)

/-- The attempt gave a next configuration. -/
def Outcome.isNext {α : Type} : Outcome α → Bool
  | Outcome.next _ => true
  | _ => false

/-- The attempt ended in a run-time fault. -/
def Outcome.isFault {α : Type} : Outcome α → Bool
  | Outcome.fault => true
  | _ => false

/-! ## Basic facts about the map and the trace -/

theorem index_insert_self {R : Type} (m : Finmap (fun _ : String => Option R)) (k : String)
    (v : Option R) : index (m.insert k v) k = v := by
  simp [index, Finmap.lookup_insert]

theorem index_insert_of_ne {R : Type} (m : Finmap (fun _ : String => Option R))
    {k k' : String} (v : Option R) (h : k' ≠ k) : index (m.insert k v) k' = index m k' := by
  simp [index, Finmap.lookup_insert_of_ne m h]

theorem index_eq_some_iff {R : Type} (m : Finmap (fun _ : String => Option R)) (k : String)
    (r : R) : index m k = some r ↔ m.lookup k = some (some r) := by
  unfold index
  cases h : m.lookup k with
  | none => simp
  | some v => cases v <;> simp

theorem index_eq_none_of_lookup_none {R : Type} {m : Finmap (fun _ : String => Option R)}
    {k : String} (h : m.lookup k = none) : index m k = none := by
  simp [index, h]

theorem compiles_append (tr tr' : List Event) :
    compiles (tr ++ tr') = compiles tr ++ compiles tr' := by
  simp [compiles, List.filterMap_append]

theorem matchCalls_append (tr tr' : List Event) :
    matchCalls (tr ++ tr') = matchCalls tr + matchCalls tr' := by
  simp [matchCalls, List.countP_append]

/-! ## The two paths of `getRegexpObject` -/

theorem getRegexpObject_hit {R E Rd : Type} (eng : Engine R E Rd) (k : String) (st : State R)
    (r : R) (h : index st.regexMap k = some r) :
    getRegexpObject eng k st =
      ((some r, none),
        { st with trace := st.trace ++ [Event.RLock, Event.Read k, Event.RUnlock] }) := by
  simp [getRegexpObject, h]

theorem getRegexpObject_miss {R E Rd : Type} (eng : Engine R E Rd) (k : String) (st : State R)
    (h : index st.regexMap k = none) :
    getRegexpObject eng k st =
      (eng.Compile (compiles st.trace).length k,
        { regexMap := st.regexMap.insert k (eng.Compile (compiles st.trace).length k).1
          trace := st.trace ++ [Event.RLock, Event.Read k, Event.RUnlock, Event.Compile k,
            Event.Lock, Event.Write k, Event.Unlock] }) := by
  simp [getRegexpObject, h, addRegexObject, compiles]

/-! ## What a call does to the map and to the list of compilations -/

theorem step_regexMap {R E Rd : Type} (eng : Engine R E Rd) (st : State R) (op : Op Rd) :
    (step eng st op).regexMap = (getRegexpObject eng op.pattern st).2.regexMap := by
  cases op with
  | getRegexpObject s => rfl
  | Match q b =>
    simp only [step, Match, Op.pattern]
    split
    · rfl
    · split <;> rfl
  | MatchReader q rd =>
    simp only [step, MatchReader, Op.pattern]
    split
    · rfl
    · split <;> rfl
  | MatchString q s =>
    simp only [step, MatchString, Op.pattern]
    split
    · rfl
    · split <;> rfl

theorem step_compiles {R E Rd : Type} (eng : Engine R E Rd) (st : State R) (op : Op Rd) :
    compiles (step eng st op).trace = compiles (getRegexpObject eng op.pattern st).2.trace := by
  cases op with
  | getRegexpObject s => rfl
  | Match q b =>
    simp only [step, Match, Op.pattern]
    split
    · rfl
    · split
      · rfl
      · simp [compiles_append, compiles]
  | MatchReader q rd =>
    simp only [step, MatchReader, Op.pattern]
    split
    · rfl
    · split
      · rfl
      · simp [compiles_append, compiles]
  | MatchString q s =>
    simp only [step, MatchString, Op.pattern]
    split
    · rfl
    · split
      · rfl
      · simp [compiles_append, compiles]

theorem run_nil {R E Rd : Type} (eng : Engine R E Rd) (st : State R) :
    run eng ([] : List (Op Rd)) st = st := rfl

theorem run_cons {R E Rd : Type} (eng : Engine R E Rd) (op : Op Rd) (ops : List (Op Rd))
    (st : State R) : run eng (op :: ops) st = run eng ops (step eng st op) := rfl

theorem run_append {R E Rd : Type} (eng : Engine R E Rd) (ops ops' : List (Op Rd))
    (st : State R) : run eng (ops ++ ops') st = run eng ops' (run eng ops st) := by
  simp [run, List.foldl_append]

/-- A compiled entry survives one resolution, of whatever key. -/
theorem getRegexpObject_keeps_entry {R E Rd : Type} (eng : Engine R E Rd) (st : State R)
    (k : String) (r : R) (h : st.regexMap.lookup k = some (some r)) (s : String) :
    (getRegexpObject eng s st).2.regexMap.lookup k = some (some r) := by
  cases hs : index st.regexMap s with
  | some r' => rw [getRegexpObject_hit eng s st r' hs]; exact h
  | none =>
    have hne : k ≠ s := by
      intro hks
      subst hks
      rw [(index_eq_some_iff _ _ _).2 h] at hs
      cases hs
    rw [getRegexpObject_miss eng s st hs]
    simp [Finmap.lookup_insert_of_ne _ hne, h]

theorem step_keeps_entry {R E Rd : Type} (eng : Engine R E Rd) (st : State R)
    (k : String) (r : R) (h : st.regexMap.lookup k = some (some r)) (op : Op Rd) :
    (step eng st op).regexMap.lookup k = some (some r) := by
  rw [step_regexMap]
  exact getRegexpObject_keeps_entry eng st k r h op.pattern

theorem run_keeps_entry {R E Rd : Type} (eng : Engine R E Rd) (ops : List (Op Rd)) :
    ∀ (st : State R) (k : String) (r : R), st.regexMap.lookup k = some (some r) →
      (run eng ops st).regexMap.lookup k = some (some r) := by
  induction ops with
  | nil => intro st k r h; exact h
  | cons op ops ih =>
    intro st k r h
    rw [run_cons]
    exact ih _ k r (step_keeps_entry eng st k r h op)

/-- A call with a pattern that is cached compiles nothing and leaves the map alone. -/
theorem step_of_cached {R E Rd : Type} (eng : Engine R E Rd) (st : State R) (op : Op Rd)
    (r : R) (h : st.regexMap.lookup op.pattern = some (some r)) :
    (step eng st op).regexMap = st.regexMap ∧
    compiles (step eng st op).trace = compiles st.trace := by
  rw [step_regexMap, step_compiles,
    getRegexpObject_hit eng op.pattern st r ((index_eq_some_iff _ _ _).2 h)]
  simp [compiles_append, compiles]

theorem run_of_cached {R E Rd : Type} (eng : Engine R E Rd) (p : String) (r : R)
    (ops : List (Op Rd)) :
    ∀ st : State R, st.regexMap.lookup p = some (some r) → (∀ op ∈ ops, op.pattern = p) →
      (run eng ops st).regexMap = st.regexMap ∧
      compiles (run eng ops st).trace = compiles st.trace := by
  induction ops with
  | nil => intro st _ _; exact ⟨rfl, rfl⟩
  | cons op ops ih =>
    intro st h hp
    have hop : op.pattern = p := hp op (List.mem_cons_self _ _)
    have h1 := step_of_cached eng st op r (hop ▸ h)
    have h2 := ih (step eng st op) (by rw [h1.1]; exact h)
      (fun o ho => hp o (List.mem_cons_of_mem _ ho))
    rw [run_cons]
    exact ⟨h2.1.trans h1.1, h2.2.trans h1.2⟩

/-- A resolution that returns an object with a nil error leaves that object in the map. -/
theorem getRegexpObject_ok_cached {R E Rd : Type} (eng : Engine R E Rd) (st : State R)
    (p : String) (r : R) (h : (getRegexpObject eng p st).1 = (some r, none)) :
    (getRegexpObject eng p st).2.regexMap.lookup p = some (some r) := by
  cases hs : index st.regexMap p with
  | some r' =>
    rw [getRegexpObject_hit eng p st r' hs] at h ⊢
    simp only [Prod.mk.injEq, Option.some.injEq, and_true] at h
    subst h
    exact (index_eq_some_iff _ _ _).1 hs
  | none =>
    rw [getRegexpObject_miss eng p st hs] at h ⊢
    simp only at h
    rw [h]
    simp [Finmap.lookup_insert]

/-- A miss whose compilation succeeds leaves the object in the map and records one
compilation. -/
theorem getRegexpObject_miss_ok {R E Rd : Type} (eng : Engine R E Rd) (k : String)
    (st : State R) (r : R) (hmiss : index st.regexMap k = none)
    (hok : eng.Compile (compiles st.trace).length k = (some r, none)) :
    (getRegexpObject eng k st).2.regexMap.lookup k = some (some r) ∧
    compiles (getRegexpObject eng k st).2.trace = compiles st.trace ++ [k] := by
  rw [getRegexpObject_miss eng k st hmiss, hok]
  simp [Finmap.lookup_insert, compiles_append, compiles]

/-! ## Where the entries of a reachable map come from -/

theorem fromCompile_init {R E Rd : Type} (eng : Engine R E Rd) :
    FromCompile eng (State.init R) := by
  intro k v h
  simp [State.init, Finmap.lookup_empty] at h

theorem fromCompile_step {R E Rd : Type} (eng : Engine R E Rd) (st : State R) (op : Op Rd)
    (h : FromCompile eng st) : FromCompile eng (step eng st op) := by
  intro k v hk
  rw [step_regexMap] at hk
  cases hs : index st.regexMap op.pattern with
  | some r' =>
    rw [getRegexpObject_hit eng op.pattern st r' hs] at hk
    exact h k v hk
  | none =>
    rw [getRegexpObject_miss eng op.pattern st hs] at hk
    by_cases hkp : k = op.pattern
    · subst hkp
      simp only [Finmap.lookup_insert, Option.some.injEq] at hk
      exact ⟨_, hk.symm⟩
    · simp only [Finmap.lookup_insert_of_ne _ hkp] at hk
      exact h k v hk

theorem fromCompile_run {R E Rd : Type} (eng : Engine R E Rd) (ops : List (Op Rd)) :
    ∀ st : State R, FromCompile eng st → FromCompile eng (run eng ops st) := by
  induction ops with
  | nil => intro st h; exact h
  | cons op ops ih => intro st h; exact ih _ (fromCompile_step eng st op h)

theorem fromCompile_of_reachable {R E Rd : Type} (eng : Engine R E Rd) (st : State R)
    (h : Reachable eng st) : FromCompile eng st := by
  obtain ⟨ops, rfl⟩ := h
  exact fromCompile_run eng ops _ (fromCompile_init eng)

/-- In a reachable state a text the engine never compiles has no object in the map. -/
theorem index_none_of_invalid {R E Rd : Type} (eng : Engine R E Rd) (st : State R)
    (hreach : Reachable eng st) (p : String) (hbad : ∀ n, (eng.Compile n p).1 = none) :
    index st.regexMap p = none := by
  cases h : st.regexMap.lookup p with
  | none => exact index_eq_none_of_lookup_none h
  | some v =>
    obtain ⟨n, hn⟩ := fromCompile_of_reachable eng st hreach p v h
    simp [index, h, hn, hbad n]

/-- Resolving, again and again, a text that has no object in the map and that the
engine rejects: every call compiles, and the text still has no object. -/
theorem run_replicate_invalid {R E Rd : Type} (eng : Engine R E Rd) (p : String)
    (hbad : ∀ n, (eng.Compile n p).1 = none) (N : Nat) :
    ∀ st : State R, index st.regexMap p = none →
      index (run eng (List.replicate N (Op.getRegexpObject p : Op Rd)) st).regexMap p = none ∧
      compiles (run eng (List.replicate N (Op.getRegexpObject p : Op Rd)) st).trace
        = compiles st.trace ++ List.replicate N p := by
  induction N with
  | zero => intro st h; simpa [run_nil] using h
  | succ N ih =>
    intro st h
    have hstep : step eng st (Op.getRegexpObject p : Op Rd)
        = (getRegexpObject eng p st).2 := rfl
    have hmap : index (step eng st (Op.getRegexpObject p : Op Rd)).regexMap p = none := by
      rw [hstep, getRegexpObject_miss eng p st h]
      simp [index_insert_self, hbad]
    have hcomp : compiles (step eng st (Op.getRegexpObject p : Op Rd)).trace
        = compiles st.trace ++ [p] := by
      rw [hstep, getRegexpObject_miss eng p st h]
      simp [compiles_append, compiles]
    have h2 := ih _ hmap
    rw [List.replicate_succ, run_cons]
    refine ⟨h2.1, ?_⟩
    rw [h2.2, hcomp]
    simp [List.append_assoc, List.replicate_succ]

theorem matchCalls_getRegexpObject {R E Rd : Type} (eng : Engine R E Rd) (k : String)
    (st : State R) :
    matchCalls (getRegexpObject eng k st).2.trace = matchCalls st.trace := by
  cases hs : index st.regexMap k with
  | some r => rw [getRegexpObject_hit eng k st r hs]; simp [matchCalls_append, matchCalls]
  | none => rw [getRegexpObject_miss eng k st hs]; simp [matchCalls_append, matchCalls]

/-- With a deterministic engine, in a reachable state, resolving a pattern gives
what compiling it gives, provided the engine does not answer with both an object
and an error. -/
theorem getRegexpObject_eq_compile {R E Rd : Type} (eng : Engine R E Rd) (st : State R)
    (hdet : Deterministic eng) (hreach : Reachable eng st) (p : String)
    (hp : (eng.Compile 0 p).1 = none ∨ (eng.Compile 0 p).2 = none) :
    (getRegexpObject eng p st).1 = eng.Compile 0 p := by
  cases hs : index st.regexMap p with
  | none => rw [getRegexpObject_miss eng p st hs]; exact hdet _ p
  | some r =>
    rw [getRegexpObject_hit eng p st r hs]
    obtain ⟨n, hn⟩ := fromCompile_of_reachable eng st hreach p (some r)
      ((index_eq_some_iff _ _ _).1 hs)
    rw [hdet n p] at hn
    rcases hp with h1 | h2
    · rw [h1] at hn; cases hn
    · exact Prod.ext hn h2.symm

/-- The keys of a map with two distinct keys inserted into the empty map. -/
theorem keys_insert_insert_empty {R : Type} (k1 k2 : String) (v1 v2 : Option R) :
    (Finmap.insert k2 v2
      (Finmap.insert k1 v1 (∅ : Finmap (fun _ : String => Option R)))).keys = {k1, k2} := by
  ext j
  simp only [Finmap.mem_keys, Finmap.mem_insert, Finset.mem_insert, Finset.mem_singleton]
  constructor
  · rintro (h | h | h)
    · exact Or.inr h
    · exact Or.inl h
    · exact absurd h (Finmap.not_mem_empty)
  · rintro (h | h)
    · exact Or.inr (Or.inl h)
    · exact Or.inl h

/-! ## Keys, frames and the promise of the engine -/

theorem keys_insert {R : Type} (m : Finmap (fun _ : String => Option R)) (k : String)
    (v : Option R) : (m.insert k v).keys = insert k m.keys := by
  ext j
  simp only [Finmap.mem_keys, Finmap.mem_insert, Finset.mem_insert]

/-- Under the promise of the engine an answer is `(r, nil)` or `(nil, e)`. -/
theorem compile_cases {R E Rd : Type} (eng : Engine R E Rd) (h : CompileContract eng)
    (n : Nat) (s : String) :
    (∃ r, eng.Compile n s = (some r, none)) ∨ (∃ e, eng.Compile n s = (none, some e)) := by
  have hc := h n s
  rcases hres : eng.Compile n s with ⟨rex, err⟩
  rw [hres] at hc
  cases rex with
  | none =>
    cases err with
    | none => exact absurd (hc.1 rfl) (by simp)
    | some e => exact Or.inr ⟨e, rfl⟩
  | some r =>
    cases err with
    | none => exact Or.inl ⟨r, rfl⟩
    | some e => exact absurd (hc.2 (by simp)) (by simp)

/-- Under the promise of the engine a resolution returns `(r, nil)` or `(nil, e)`. -/
theorem getRegexpObject_cases {R E Rd : Type} (eng : Engine R E Rd) (h : CompileContract eng)
    (k : String) (st : State R) :
    (∃ r, (getRegexpObject eng k st).1 = (some r, none)) ∨
    (∃ e, (getRegexpObject eng k st).1 = (none, some e)) := by
  cases hs : index st.regexMap k with
  | some r => rw [getRegexpObject_hit eng k st r hs]; exact Or.inl ⟨r, rfl⟩
  | none => rw [getRegexpObject_miss eng k st hs]; exact compile_cases eng h _ k

/-- After a resolution of `k` the keys are the old keys and `k`. -/
theorem getRegexpObject_keys {R E Rd : Type} (eng : Engine R E Rd) (k : String) (st : State R) :
    (getRegexpObject eng k st).2.regexMap.keys = insert k st.regexMap.keys := by
  cases hs : index st.regexMap k with
  | some r =>
    rw [getRegexpObject_hit eng k st r hs]
    have hk : k ∈ st.regexMap.keys :=
      Finmap.mem_keys.2 (Finmap.mem_of_lookup_eq_some ((index_eq_some_iff _ _ _).1 hs))
    exact (Finset.insert_eq_of_mem hk).symm
  | none =>
    rw [getRegexpObject_miss eng k st hs]
    exact keys_insert _ _ _

theorem run_keys {R E Rd : Type} (eng : Engine R E Rd) (ops : List (Op Rd)) :
    ∀ st : State R,
      (run eng ops st).regexMap.keys = st.regexMap.keys ∪ (ops.map Op.pattern).toFinset := by
  induction ops with
  | nil => intro st; simp [run_nil]
  | cons op ops ih =>
    intro st
    rw [run_cons, ih, step_regexMap, getRegexpObject_keys]
    ext j
    simp only [Finset.mem_union, Finset.mem_insert, List.map_cons, List.toFinset_cons]
    tauto

/-- Calls with texts the engine rejects leave `regexMap[k]` nil where it was nil. -/
theorem run_invalid_index {R E Rd : Type} (eng : Engine R E Rd) (ops : List (Op Rd))
    (hbad : ∀ op ∈ ops, ∀ n, (eng.Compile n op.pattern).1 = none) (k : String) :
    ∀ st : State R, index st.regexMap k = none → index (run eng ops st).regexMap k = none := by
  induction ops with
  | nil => intro st h; exact h
  | cons op ops ih =>
    intro st h
    rw [run_cons]
    apply ih (fun o ho => hbad o (List.mem_cons_of_mem _ ho))
    rw [step_regexMap]
    cases hs : index st.regexMap op.pattern with
    | some r => rw [getRegexpObject_hit eng op.pattern st r hs]; exact h
    | none =>
      rw [getRegexpObject_miss eng op.pattern st hs]
      by_cases hk : k = op.pattern
      · subst hk
        simp [index_insert_self, hbad op (List.mem_cons_self _ _)]
      · simp [index_insert_of_ne _ _ hk, h]

/-- With a deterministic engine every stored pointer of a reachable state is the
object the engine gives for its key. -/
theorem lookup_eq_compile {R E Rd : Type} (eng : Engine R E Rd) (st : State R)
    (hdet : Deterministic eng) (hreach : Reachable eng st) (k : String) (v : Option R)
    (h : st.regexMap.lookup k = some v) : v = (eng.Compile 0 k).1 := by
  obtain ⟨n, hn⟩ := fromCompile_of_reachable eng st hreach k v h
  rw [hn, hdet n k]

/-! ## Walking a trace of lock events -/

theorem lockWalk_append (pre evs : List Event) :
    ∀ h : Held, lockWalk h (pre ++ evs) = (lockWalk h pre).bind fun h1 => lockWalk h1 evs := by
  induction pre with
  | nil => intro h; simp [lockWalk]
  | cons ev pre ih =>
    intro h
    simp only [List.cons_append, lockWalk]
    cases lockStep h ev with
    | none => simp
    | some h1 => exact ih h1

/-- In a trace that passes the check, the shared lock is held at every read. -/
theorem lockWalk_before_read (pre post : List Event) (s : String) (h0 h2 : Held)
    (h : lockWalk h0 (pre ++ Event.Read s :: post) = some h2) :
    lockWalk h0 pre = some Held.shared := by
  rw [lockWalk_append] at h
  cases h1 : lockWalk h0 pre with
  | none => simp [h1] at h
  | some held =>
    cases held <;> simp [h1, lockWalk, lockStep] at h ⊢

/-- In a trace that passes the check, no lock is held at a call of `Compile`. -/
theorem lockWalk_before_compile (pre post : List Event) (s : String) (h0 h2 : Held)
    (h : lockWalk h0 (pre ++ Event.Compile s :: post) = some h2) :
    lockWalk h0 pre = some Held.free := by
  rw [lockWalk_append] at h
  cases h1 : lockWalk h0 pre with
  | none => simp [h1] at h
  | some held =>
    cases held <;> simp [h1, lockWalk, lockStep] at h ⊢

/-- In a trace that passes the check, the exclusive lock is held at every write. -/
theorem lockWalk_before_write (pre post : List Event) (s : String) (h0 h2 : Held)
    (h : lockWalk h0 (pre ++ Event.Write s :: post) = some h2) :
    lockWalk h0 pre = some Held.exclusive := by
  rw [lockWalk_append] at h
  cases h1 : lockWalk h0 pre with
  | none => simp [h1] at h
  | some held =>
    cases held <;> simp [h1, lockWalk, lockStep] at h ⊢

/-! ## Interleavings: the actions one by one -/

/-- The nine actions, spelled out: what a successful step of goroutine `i` is. -/
theorem stepThread_next {R E Rd : Type} (eng : Engine R E Rd) (pol : Conf R E → Bool)
    (K : Nat) (p : String) (i : Nat) (c c1 : Conf R E)
    (h : stepThread eng pol K p i c = Outcome.next c1) :
    i < K ∧
    ((c.pc i = Pc.atRLock ∧ c.writer = none ∧
        c1 = { c with
          readers := insert i c.readers
          trace := c.trace ++ [Event.RLock]
          pc := Function.update c.pc i Pc.atRead }) ∨
      (c.pc i = Pc.atRead ∧
        c1 = { c with
          trace := c.trace ++ [Event.Read p]
          pc := Function.update c.pc i (Pc.atRUnlock (index c.regexMap p)) }) ∨
      (c.pc i = Pc.atRUnlock none ∧ i ∈ c.readers ∧
        c1 = { c with
          readers := c.readers.erase i
          trace := c.trace ++ [Event.RUnlock]
          pc := Function.update c.pc i Pc.atCompile }) ∨
      (∃ r, c.pc i = Pc.atRUnlock (some r) ∧ i ∈ c.readers ∧
        c1 = { c with
          readers := c.readers.erase i
          trace := c.trace ++ [Event.RUnlock]
          pc := Function.update c.pc i (Pc.done (some r) none) }) ∨
      (c.pc i = Pc.atCompile ∧
        c1 = { c with
          trace := c.trace ++ [Event.Compile p]
          pc := Function.update c.pc i
            (Pc.atLock (eng.Compile (compiles c.trace).length p).1
              (eng.Compile (compiles c.trace).length p).2) }) ∨
      (∃ rex err, c.pc i = Pc.atLock rex err ∧
        c1 = { c with pc := Function.update c.pc i (Pc.inLock rex err) }) ∨
      (∃ rex err, c.pc i = Pc.inLock rex err ∧ c.writer = none ∧ c.readers = ∅ ∧
        c1 = { c with
          writer := some i
          trace := c.trace ++ [Event.Lock]
          pc := Function.update c.pc i (Pc.atWrite rex err) }) ∨
      (∃ rex err, c.pc i = Pc.atWrite rex err ∧
        c1 = { c with
          regexMap := c.regexMap.insert p rex
          trace := c.trace ++ [Event.Write p]
          pc := Function.update c.pc i (Pc.atUnlock rex err) }) ∨
      (∃ rex err, c.pc i = Pc.atUnlock rex err ∧ c.writer = some i ∧
        c1 = { c with
          writer := none
          trace := c.trace ++ [Event.Unlock]
          pc := Function.update c.pc i (Pc.done rex err) })) := by
  unfold stepThread at h
  split at h
  · rename_i hi
    refine ⟨hi, ?_⟩
    split at h
    · rename_i hpc
      split at h
      · rename_i hg
        simp only [Bool.and_eq_true, Option.isNone_iff_eq_none] at hg
        injection h with h
        exact Or.inl ⟨hpc, hg.1, h.symm⟩
      · cases h
    · rename_i hpc
      injection h with h
      exact Or.inr (Or.inl ⟨hpc, h.symm⟩)
    · rename_i rex hpc
      split at h
      · rename_i hg
        injection h with h
        cases rex with
        | none => exact Or.inr (Or.inr (Or.inl ⟨hpc, hg, h.symm⟩))
        | some r => exact Or.inr (Or.inr (Or.inr (Or.inl ⟨r, hpc, hg, h.symm⟩)))
      · cases h
    · rename_i hpc
      injection h with h
      exact Or.inr (Or.inr (Or.inr (Or.inr (Or.inl ⟨hpc, h.symm⟩))))
    · rename_i rex err hpc
      injection h with h
      exact Or.inr (Or.inr (Or.inr (Or.inr (Or.inr (Or.inl ⟨rex, err, hpc, h.symm⟩)))))
    · rename_i rex err hpc
      split at h
      · rename_i hg
        simp only [Bool.and_eq_true, Option.isNone_iff_eq_none, decide_eq_true_eq] at hg
        injection h with h
        exact Or.inr (Or.inr (Or.inr (Or.inr (Or.inr (Or.inr (Or.inl
          ⟨rex, err, hpc, hg.1, hg.2, h.symm⟩))))))
      · cases h
    · rename_i rex err hpc
      injection h with h
      exact Or.inr (Or.inr (Or.inr (Or.inr (Or.inr (Or.inr (Or.inr (Or.inl
        ⟨rex, err, hpc, h.symm⟩)))))))
    · rename_i rex err hpc
      split at h
      · rename_i hg
        injection h with h
        exact Or.inr (Or.inr (Or.inr (Or.inr (Or.inr (Or.inr (Or.inr (Or.inr
          ⟨rex, err, hpc, hg, h.symm⟩)))))))
      · cases h
    · cases h
  · cases h

/-! ## Interleavings: what every reachable configuration satisfies -/

theorem inv_init {R E : Type} (K : Nat) (p : String) (st0 : State R) :
    Inv K p st0 (Conf.init E st0) := by
  refine ⟨?_, ?_, ?_, ?_, ?_, ?_, ?_⟩
  · intro i; simp [Conf.init, Pc.holdsShared]
  · intro i; simp [Conf.init, Pc.holdsExclusive]
  · intro _; rfl
  · intro i _; rfl
  · intro i _ h; simp [Conf.init, Pc.sawObject] at h
  · intro j _; rfl
  · exact Or.inl rfl

theorem inv_step {R E Rd : Type} (eng : Engine R E Rd) (pol : Conf R E → Bool)
    (K : Nat) (p : String) (st0 : State R)
    (hvalid : ∀ n, ∃ r, eng.Compile n p = (some r, none)) (i : Nat) (c c1 : Conf R E)
    (hinv : Inv K p st0 c) (h : stepThread eng pol K p i c = Outcome.next c1) :
    Inv K p st0 c1 := by
  obtain ⟨hi, hcases⟩ := stepThread_next eng pol K p i c c1 h
  obtain ⟨hR, hW, hX, hL, hS, hF, hE⟩ := hinv
  have hkeepL : ∀ q : Pc R E, q.sound = true →
      ∀ j, j < K → (Function.update c.pc i q j).sound = true := by
    intro q hq j hjK
    by_cases hj : j = i
    · subst hj; simpa using hq
    · simp only [Function.update_noteq hj]; exact hL j hjK
  have hkeepS : ∀ (q : Pc R E) (m : Finmap (fun _ : String => Option R)),
      (q.sawObject = true → ∃ r, m.lookup p = some (some r)) →
      ((∃ r, c.regexMap.lookup p = some (some r)) → ∃ r, m.lookup p = some (some r)) →
      ∀ j, j < K → (Function.update c.pc i q j).sawObject = true →
        ∃ r, m.lookup p = some (some r) := by
    intro q m hq hm j hjK
    by_cases hj : j = i
    · subst hj; simpa using hq
    · simp only [Function.update_noteq hj]; exact fun hs => hm (hS j hjK hs)
  rcases hcases with ⟨hpc, hw, rfl⟩ | ⟨hpc, rfl⟩ | ⟨hpc, hmem, rfl⟩ | ⟨r, hpc, hmem, rfl⟩ |
    ⟨hpc, rfl⟩ | ⟨rex, err, hpc, rfl⟩ | ⟨rex, err, hpc, hw, hr, rfl⟩ | ⟨rex, err, hpc, rfl⟩ |
    ⟨rex, err, hpc, hw, rfl⟩
  · -- RLock
    refine ⟨?_, ?_, ?_, hkeepL _ rfl, hkeepS _ _ (by simp [Pc.sawObject]) id, hF, hE⟩
    · intro j
      by_cases hj : j = i
      · subst hj; simp [Pc.holdsShared, hi]
      · simp [Function.update_noteq hj, hj, hR j]
    · intro j
      by_cases hj : j = i
      · subst hj; simp [Pc.holdsExclusive, hw]
      · simp [Function.update_noteq hj, hW j]
    · intro h; exact absurd hw h
  · -- Read
    have hnw : c.writer ≠ some i := fun hwi => by
      have := ((hW i).1 hwi).2
      simp [hpc, Pc.holdsExclusive] at this
    have hmemi : i ∈ c.readers := (hR i).2 ⟨hi, by simp [hpc, Pc.holdsShared]⟩
    refine ⟨?_, ?_, hX, hkeepL _ rfl, hkeepS _ _ ?_ id, hF, hE⟩
    · intro j
      by_cases hj : j = i
      · subst hj; simp [Pc.holdsShared, hi, hmemi]
      · simp [Function.update_noteq hj, hR j]
    · intro j
      by_cases hj : j = i
      · subst hj; simp [Pc.holdsExclusive, hnw]
      · simp [Function.update_noteq hj, hW j]
    · intro hso
      cases hidx : index c.regexMap p with
      | none => simp [hidx, Pc.sawObject] at hso
      | some r => exact ⟨r, (index_eq_some_iff _ _ _).1 hidx⟩
  · -- RUnlock after reading nil
    have hnw : c.writer ≠ some i := fun hwi => by
      have := ((hW i).1 hwi).2
      simp [hpc, Pc.holdsExclusive] at this
    refine ⟨?_, ?_, ?_, hkeepL _ rfl, hkeepS _ _ (by simp [Pc.sawObject]) id, hF, hE⟩
    · intro j
      by_cases hj : j = i
      · subst hj; simp [Pc.holdsShared]
      · simp [Function.update_noteq hj, hj, hR j]
    · intro j
      by_cases hj : j = i
      · subst hj; simp [Pc.holdsExclusive, hnw]
      · simp [Function.update_noteq hj, hW j]
    · intro h; simp [hX h]
  · -- RUnlock after reading an object
    have hnw : c.writer ≠ some i := fun hwi => by
      have := ((hW i).1 hwi).2
      simp [hpc, Pc.holdsExclusive] at this
    have hobj : ∃ r, c.regexMap.lookup p = some (some r) :=
      hS i hi (by simp [hpc, Pc.sawObject])
    refine ⟨?_, ?_, ?_, hkeepL _ rfl, hkeepS _ _ (fun _ => hobj) id, hF, hE⟩
    · intro j
      by_cases hj : j = i
      · subst hj; simp [Pc.holdsShared]
      · simp [Function.update_noteq hj, hj, hR j]
    · intro j
      by_cases hj : j = i
      · subst hj; simp [Pc.holdsExclusive, hnw]
      · simp [Function.update_noteq hj, hW j]
    · intro h; simp [hX h]
  · -- Compile
    have hnw : c.writer ≠ some i := fun hwi => by
      have := ((hW i).1 hwi).2
      simp [hpc, Pc.holdsExclusive] at this
    have hnr : i ∉ c.readers := fun hm => by
      have := ((hR i).1 hm).2
      simp [hpc, Pc.holdsShared] at this
    obtain ⟨r, hr⟩ := hvalid (compiles c.trace).length
    refine ⟨?_, ?_, hX, hkeepL _ (by simp [Pc.sound, hr]),
      hkeepS _ _ (by simp [Pc.sawObject]) id, hF, hE⟩
    · intro j
      by_cases hj : j = i
      · subst hj; simp [Pc.holdsShared, hnr]
      · simp [Function.update_noteq hj, hR j]
    · intro j
      by_cases hj : j = i
      · subst hj; simp [Pc.holdsExclusive, hnw]
      · simp [Function.update_noteq hj, hW j]
  · -- the call of Lock
    have hnw : c.writer ≠ some i := fun hwi => by
      have := ((hW i).1 hwi).2
      simp [hpc, Pc.holdsExclusive] at this
    have hnr : i ∉ c.readers := fun hm => by
      have := ((hR i).1 hm).2
      simp [hpc, Pc.holdsShared] at this
    have hsound : (Pc.inLock rex err : Pc R E).sound = true := by
      have := hL i hi
      simpa [hpc, Pc.sound] using this
    refine ⟨?_, ?_, hX, hkeepL _ hsound, hkeepS _ _ (by simp [Pc.sawObject]) id, hF, hE⟩
    · intro j
      by_cases hj : j = i
      · subst hj; simp [Pc.holdsShared, hnr]
      · simp [Function.update_noteq hj, hR j]
    · intro j
      by_cases hj : j = i
      · subst hj; simp [Pc.holdsExclusive, hnw]
      · simp [Function.update_noteq hj, hW j]
  · -- Lock acquired
    have hsound : (Pc.atWrite rex err : Pc R E).sound = true := by
      have := hL i hi
      simpa [hpc, Pc.sound] using this
    refine ⟨?_, ?_, fun _ => hr, hkeepL _ hsound, hkeepS _ _ (by simp [Pc.sawObject]) id,
      hF, hE⟩
    · intro j
      by_cases hj : j = i
      · subst hj; simp [Pc.holdsShared, hr]
      · simp [Function.update_noteq hj, hR j]
    · intro j
      by_cases hj : j = i
      · subst hj; simp [Pc.holdsExclusive, hi]
      · have hnj : ¬ (j < K ∧ (c.pc j).holdsExclusive = true) := fun hjx => by
          have := (hW j).2 hjx
          rw [hw] at this
          cases this
        simp only [Function.update_noteq hj]
        constructor
        · intro hij
          exact absurd (Option.some.inj hij).symm hj
        · intro hjx
          exact absurd hjx hnj
  · -- Write
    have hsound : (Pc.atUnlock rex err : Pc R E).sound = true := by
      have := hL i hi
      simpa [hpc, Pc.sound] using this
    have hrex : ∃ r, rex = some r := by
      have := hL i hi
      simp only [hpc, Pc.sound, Bool.and_eq_true, Option.isSome_iff_exists] at this
      exact this.1
    obtain ⟨r, rfl⟩ := hrex
    have hnow : ∃ r', (c.regexMap.insert p (some r)).lookup p = some (some r') :=
      ⟨r, by simp [Finmap.lookup_insert]⟩
    have hwi : c.writer = some i := (hW i).2 ⟨hi, by simp [hpc, Pc.holdsExclusive]⟩
    have hnr : i ∉ c.readers := by
      rw [hX (by rw [hwi]; simp)]
      simp
    refine ⟨?_, ?_, hX, hkeepL _ hsound, hkeepS _ _ (fun _ => hnow) (fun _ => hnow), ?_,
      Or.inr hnow⟩
    · intro j
      by_cases hj : j = i
      · subst hj; simp [Pc.holdsShared, hnr]
      · simp [Function.update_noteq hj, hR j]
    · intro j
      by_cases hj : j = i
      · subst hj; simp [Pc.holdsExclusive, hi, hwi]
      · simp [Function.update_noteq hj, hW j]
    · intro j hj
      simp only [Finmap.lookup_insert_of_ne _ hj]
      exact hF j hj
  · -- Unlock
    have hsound : (Pc.done rex err : Pc R E).sound = true := by
      have := hL i hi
      simpa [hpc, Pc.sound] using this
    have hobj : ∃ r, c.regexMap.lookup p = some (some r) :=
      hS i hi (by simp [hpc, Pc.sawObject])
    have hnr : i ∉ c.readers := by
      rw [hX (by rw [hw]; simp)]
      simp
    refine ⟨?_, ?_, fun h => absurd rfl h, hkeepL _ hsound, hkeepS _ _ (fun _ => hobj) id,
      hF, hE⟩
    · intro j
      by_cases hj : j = i
      · subst hj; simp [Pc.holdsShared, hnr]
      · simp [Function.update_noteq hj, hR j]
    · intro j
      by_cases hj : j = i
      · subst hj; simp [Pc.holdsExclusive]
      · have hnj : ¬ (j < K ∧ (c.pc j).holdsExclusive = true) := fun hjx => by
          have := (hW j).2 hjx
          rw [hw] at this
          exact hj (Option.some.inj this).symm
        simp only [Function.update_noteq hj]
        constructor
        · intro hij; cases hij
        · intro hjx; exact absurd hjx hnj

theorem inv_exec {R E Rd : Type} (eng : Engine R E Rd) (pol : Conf R E → Bool)
    (K : Nat) (p : String) (st0 : State R)
    (hvalid : ∀ n, ∃ r, eng.Compile n p = (some r, none)) (sched : List Nat) :
    ∀ c c1 : Conf R E, Inv K p st0 c → exec eng pol K p sched c = some c1 →
      Inv K p st0 c1 := by
  induction sched with
  | nil =>
    intro c c1 hinv h
    simp only [exec, Option.some.injEq] at h
    exact h ▸ hinv
  | cons i sched ih =>
    intro c c1 hinv h
    simp only [exec] at h
    split at h
    · rename_i c2 hstep
      exact ih c2 c1 (inv_step eng pol K p st0 hvalid i c c2 hinv hstep) h
    · cases h

theorem exec_append {R E Rd : Type} (eng : Engine R E Rd) (pol : Conf R E → Bool)
    (K : Nat) (p : String) (s1 s2 : List Nat) :
    ∀ c c1 c2 : Conf R E, exec eng pol K p s1 c = some c1 → exec eng pol K p s2 c1 = some c2 →
      exec eng pol K p (s1 ++ s2) c = some c2 := by
  induction s1 with
  | nil =>
    intro c c1 c2 h1 h2
    simp only [exec, Option.some.injEq] at h1
    subst h1
    exact h2
  | cons i s1 ih =>
    intro c c1 c2 h1 h2
    simp only [exec, List.cons_append] at h1 ⊢
    split at h1
    · rename_i c3 hstep
      exact ih c3 c1 c2 h1 h2
    · cases h1

/-- A step lowers the rank of the goroutine that does it and moves no other. -/
theorem stepThread_rank {R E Rd : Type} (eng : Engine R E Rd) (pol : Conf R E → Bool)
    (K : Nat) (p : String) (i : Nat) (c c1 : Conf R E)
    (h : stepThread eng pol K p i c = Outcome.next c1) :
    i < K ∧ (c1.pc i).rank < (c.pc i).rank ∧ ∀ j, j ≠ i → c1.pc j = c.pc j := by
  obtain ⟨hi, hcases⟩ := stepThread_next eng pol K p i c c1 h
  refine ⟨hi, ?_⟩
  rcases hcases with ⟨hpc, _, rfl⟩ | ⟨hpc, rfl⟩ | ⟨hpc, _, rfl⟩ | ⟨r, hpc, _, rfl⟩ |
    ⟨hpc, rfl⟩ | ⟨rex, err, hpc, rfl⟩ | ⟨rex, err, hpc, _, _, rfl⟩ | ⟨rex, err, hpc, rfl⟩ |
    ⟨rex, err, hpc, _, rfl⟩ <;>
  exact ⟨by simp [hpc, Pc.rank], fun j hj => by simp [Function.update_noteq hj]⟩

theorem remaining_step {R E Rd : Type} (eng : Engine R E Rd) (pol : Conf R E → Bool)
    (K : Nat) (p : String) (i : Nat) (c c1 : Conf R E)
    (h : stepThread eng pol K p i c = Outcome.next c1) :
    remaining K c1 + 1 ≤ remaining K c := by
  obtain ⟨hi, hlt, hsame⟩ := stepThread_rank eng pol K p i c c1 h
  apply Nat.succ_le_of_lt
  unfold remaining
  apply Finset.sum_lt_sum
  · intro j _
    by_cases hj : j = i
    · subst hj; exact Nat.le_of_lt hlt
    · rw [hsame j hj]
  · exact ⟨i, Finset.mem_range.2 hi, hlt⟩

theorem remaining_exec {R E Rd : Type} (eng : Engine R E Rd) (pol : Conf R E → Bool)
    (K : Nat) (p : String) (sched : List Nat) :
    ∀ c c1 : Conf R E, exec eng pol K p sched c = some c1 →
      sched.length + remaining K c1 ≤ remaining K c := by
  induction sched with
  | nil =>
    intro c c1 h
    simp only [exec, Option.some.injEq] at h
    subst h
    simp
  | cons i sched ih =>
    intro c c1 h
    simp only [exec] at h
    split at h
    · rename_i c2 hstep
      have h1 := ih c2 c1 h
      have h2 := remaining_step eng pol K p i c c2 hstep
      simp only [List.length_cons]
      omega
    · cases h

theorem remaining_init {R E : Type} (K : Nat) (st0 : State R) :
    remaining K (Conf.init E st0) = 8 * K := by
  simp [remaining, Conf.init, Pc.rank, Nat.mul_comm]

/-- Unless every call has returned, some goroutine can do its next action. -/
theorem stepThread_progress {R E Rd : Type} (eng : Engine R E Rd) (pol : Conf R E → Bool)
    (K : Nat) (p : String) (st0 : State R) (c : Conf R E) (hinv : Inv K p st0 c)
    (hrun : ∃ i, i < K ∧ (c.pc i).returned = false) :
    ∃ i, i < K ∧ (stepThread eng pol K p i c).isNext = true := by
  obtain ⟨hR, hW, hX, -, -, -, -⟩ := hinv
  cases hw : c.writer with
  | some j =>
    obtain ⟨hj, hx⟩ := (hW j).1 hw
    refine ⟨j, hj, ?_⟩
    cases hpc : c.pc j <;> simp [hpc, Pc.holdsExclusive] at hx <;>
      simp [stepThread, hj, hpc, hw, Outcome.isNext]
  | none =>
    by_cases hr : c.readers = ∅
    · obtain ⟨i, hi, hnot⟩ := hrun
      by_cases hwait : (writerWaiting K c && pol c) = true
      · -- a waiting writer can take the lock
        simp only [Bool.and_eq_true, writerWaiting, List.any_eq_true, List.mem_range] at hwait
        obtain ⟨⟨j, hj, hjw⟩, -⟩ := hwait
        refine ⟨j, hj, ?_⟩
        cases hpc : c.pc j <;> simp [hpc, Pc.waiting] at hjw
        simp [stepThread, hj, hpc, hw, hr, Outcome.isNext]
      · refine ⟨i, hi, ?_⟩
        have hni : i ∉ c.readers := by rw [hr]; simp
        cases hpc : c.pc i with
        | atRLock => simp [stepThread, hi, hpc, hw, hwait, Outcome.isNext]
        | atRead => simp [stepThread, hi, hpc, Outcome.isNext]
        | atRUnlock rex =>
          exact absurd ((hR i).2 ⟨hi, by simp [hpc, Pc.holdsShared]⟩) hni
        | atCompile => simp [stepThread, hi, hpc, Outcome.isNext]
        | atLock rex err => simp [stepThread, hi, hpc, Outcome.isNext]
        | inLock rex err => simp [stepThread, hi, hpc, hw, hr, Outcome.isNext]
        | atWrite rex err => simp [stepThread, hi, hpc, Outcome.isNext]
        | atUnlock rex err =>
          have := (hW i).2 ⟨hi, by simp [hpc, Pc.holdsExclusive]⟩
          rw [hw] at this
          cases this
        | done rex err => simp [hpc, Pc.returned] at hnot
    · obtain ⟨j, hjm⟩ := Finset.nonempty_iff_ne_empty.2 hr
      obtain ⟨hj, hs⟩ := (hR j).1 hjm
      refine ⟨j, hj, ?_⟩
      cases hpc : c.pc j <;> simp [hpc, Pc.holdsShared] at hs <;>
        simp [stepThread, hj, hpc, hjm, Outcome.isNext]

/-- No action of a reachable configuration is a fault. -/
theorem stepThread_no_fault {R E Rd : Type} (eng : Engine R E Rd) (pol : Conf R E → Bool)
    (K : Nat) (p : String) (st0 : State R) (c : Conf R E) (hinv : Inv K p st0 c) (i : Nat) :
    (stepThread eng pol K p i c).isFault = false := by
  by_cases hi : i < K
  · cases hpc : c.pc i with
    | atRLock =>
      simp only [stepThread, hi, hpc, if_true]
      split <;> rfl
    | atRead => simp [stepThread, hi, hpc, Outcome.isFault]
    | atRUnlock rex =>
      have hm := (hinv.readers_iff i).2 ⟨hi, by simp [hpc, Pc.holdsShared]⟩
      simp [stepThread, hi, hpc, hm, Outcome.isFault]
    | atCompile => simp [stepThread, hi, hpc, Outcome.isFault]
    | atLock rex err => simp [stepThread, hi, hpc, Outcome.isFault]
    | inLock rex err =>
      simp only [stepThread, hi, hpc, if_true]
      split <;> rfl
    | atWrite rex err => simp [stepThread, hi, hpc, Outcome.isFault]
    | atUnlock rex err =>
      have hm := (hinv.writer_iff i).2 ⟨hi, by simp [hpc, Pc.holdsExclusive]⟩
      simp [stepThread, hi, hpc, hm, Outcome.isFault]
    | done rex err => simp [stepThread, hi, hpc, Outcome.isFault]
  · simp [stepThread, hi, Outcome.isFault]

theorem isNext_iff {α : Type} (o : Outcome α) : o.isNext = true ↔ ∃ c, o = Outcome.next c := by
  cases o <;> simp [Outcome.isNext]

/-- Every reachable configuration can be run on until all calls have returned. -/
theorem exec_completion {R E Rd : Type} (eng : Engine R E Rd) (pol : Conf R E → Bool)
    (K : Nat) (p : String) (st0 : State R)
    (hvalid : ∀ n, ∃ r, eng.Compile n p = (some r, none)) :
    ∀ (n : Nat) (c : Conf R E), remaining K c ≤ n → Inv K p st0 c →
      ∃ more cf, exec eng pol K p more c = some cf ∧
        ∀ i, i < K → (cf.pc i).returned = true := by
  intro n
  induction n with
  | zero =>
    intro c hn hinv
    by_cases hall : ∀ i, i < K → (c.pc i).returned = true
    · exact ⟨[], c, rfl, hall⟩
    · exfalso
      have hrun : ∃ i, i < K ∧ (c.pc i).returned = false := by
        by_contra hcon
        apply hall
        intro i hi
        by_contra hr
        exact hcon ⟨i, hi, by simpa using hr⟩
      obtain ⟨i, hi, hnext⟩ := stepThread_progress eng pol K p st0 c hinv hrun
      obtain ⟨c1, hc1⟩ := (isNext_iff _).1 hnext
      have := remaining_step eng pol K p i c c1 hc1
      omega
  | succ n ih =>
    intro c hn hinv
    by_cases hall : ∀ i, i < K → (c.pc i).returned = true
    · exact ⟨[], c, rfl, hall⟩
    · have hrun : ∃ i, i < K ∧ (c.pc i).returned = false := by
        by_contra hcon
        apply hall
        intro i hi
        by_contra hr
        exact hcon ⟨i, hi, by simpa using hr⟩
      obtain ⟨i, hi, hnext⟩ := stepThread_progress eng pol K p st0 c hinv hrun
      obtain ⟨c1, hc1⟩ := (isNext_iff _).1 hnext
      have hdec := remaining_step eng pol K p i c c1 hc1
      obtain ⟨more, cf, hex, hdone⟩ := ih c1 (by omega)
        (inv_step eng pol K p st0 hvalid i c c1 hinv hc1)
      exact ⟨i :: more, cf, by simp only [exec, hc1]; exact hex, hdone⟩

theorem eq_some_getD {α : Type} (o : Option α) (d : α) (h : o.isSome = true) :
    o = some (o.getD d) := by
  cases o with
  | none => cases h
  | some a => rfl

/-- What holds once every call has returned. -/
theorem all_returned {R E : Type} (K : Nat) (p : String) (st0 : State R) (c : Conf R E)
    (hinv : Inv K p st0 c) (hK : 1 ≤ K) (hall : ∀ i, i < K → (c.pc i).returned = true) :
    (∀ i, i < K → ∃ r, c.pc i = Pc.done (some r) none) ∧
    (∃ r, c.regexMap.lookup p = some (some r)) ∧
    c.regexMap.keys = insert p st0.regexMap.keys ∧
    (∀ j, j ≠ p → c.regexMap.lookup j = st0.regexMap.lookup j) ∧
    c.readers = ∅ ∧ c.writer = none := by
  have hdone : ∀ i, i < K → ∃ r, c.pc i = Pc.done (some r) none := by
    intro i hi
    have hr := hall i hi
    have hs := hinv.locals i hi
    cases hpc : c.pc i <;> simp [hpc, Pc.returned] at hr
    rename_i rex err
    simp only [hpc, Pc.sound, Bool.and_eq_true, Option.isSome_iff_exists,
      Option.isNone_iff_eq_none] at hs
    obtain ⟨⟨r, rfl⟩, rfl⟩ := hs
    exact ⟨r, rfl⟩
  have hobj : ∃ r, c.regexMap.lookup p = some (some r) := by
    obtain ⟨r, hr⟩ := hdone 0 (by omega)
    exact hinv.stored 0 (by omega) (by simp [hr, Pc.sawObject])
  refine ⟨hdone, hobj, ?_, hinv.frame, ?_, ?_⟩
  · ext j
    rw [Finset.mem_insert, Finmap.mem_keys, Finmap.mem_keys]
    by_cases hj : j = p
    · subst hj
      obtain ⟨r, hr⟩ := hobj
      simp [Finmap.mem_of_lookup_eq_some hr]
    · rw [← Finmap.lookup_isSome, ← Finmap.lookup_isSome, hinv.frame j hj]
      simp [hj]
  · apply Finset.eq_empty_of_forall_not_mem
    intro i hi
    obtain ⟨hiK, hs⟩ := (hinv.readers_iff i).1 hi
    obtain ⟨r, hr⟩ := hdone i hiK
    simp [hr, Pc.holdsShared] at hs
  · cases hw : c.writer with
    | none => rfl
    | some i =>
      obtain ⟨hiK, hs⟩ := (hinv.writer_iff i).1 hw
      obtain ⟨r, hr⟩ := hdone i hiK
      simp [hr, Pc.holdsExclusive] at hs

/-- One goroutine alone does what the sequential `getRegexpObject` does. -/
theorem exec_alone {R E Rd : Type} (eng : Engine R E Rd) (pol : Conf R E → Bool)
    (p : String) (st : State R) :
    ∃ sched c, exec eng pol 1 p sched (Conf.init E st) = some c ∧
      c.regexMap = (getRegexpObject eng p st).2.regexMap ∧
      c.trace = (getRegexpObject eng p st).2.trace ∧
      c.pc 0 = Pc.done (getRegexpObject eng p st).1.1 (getRegexpObject eng p st).1.2 := by
  cases hs : index st.regexMap p with
  | some r =>
    refine ⟨[0, 0, 0], ?_⟩
    rw [getRegexpObject_hit eng p st r hs]
    simp [exec, stepThread, Conf.init, hs, writerWaiting, Pc.waiting]
  | none =>
    refine ⟨[0, 0, 0, 0, 0, 0, 0, 0], ?_⟩
    rw [getRegexpObject_miss eng p st hs]
    simp [exec, stepThread, Conf.init, hs, writerWaiting, Pc.waiting, compiles]


/-! ## Interleavings: an object under the key stays an object -/

/-- An action of a goroutine leaves an object under `p` where there was one: the
only action that changes the map stores the object of a successful
compilation. -/
theorem stepThread_keeps_object {R E Rd : Type} (eng : Engine R E Rd)
    (pol : Conf R E → Bool) (K : Nat) (p : String) (st0 : State R) (i : Nat)
    (c c1 : Conf R E) (hinv : Inv K p st0 c)
    (h : stepThread eng pol K p i c = Outcome.next c1)
    (hobj : ∃ r, c.regexMap.lookup p = some (some r)) :
    ∃ r, c1.regexMap.lookup p = some (some r) := by
  obtain ⟨hi, hcases⟩ := stepThread_next eng pol K p i c c1 h
  rcases hcases with ⟨_, _, rfl⟩ | ⟨_, rfl⟩ | ⟨_, _, rfl⟩ | ⟨r, _, _, rfl⟩ |
    ⟨_, rfl⟩ | ⟨rex, err, _, rfl⟩ | ⟨rex, err, _, _, _, rfl⟩ | ⟨rex, err, hpc, rfl⟩ |
    ⟨rex, err, _, _, rfl⟩
  · exact hobj
  · exact hobj
  · exact hobj
  · exact hobj
  · exact hobj
  · exact hobj
  · exact hobj
  · have hs := hinv.locals i hi
    simp only [hpc, Pc.sound, Bool.and_eq_true, Option.isSome_iff_exists] at hs
    obtain ⟨r, rfl⟩ := hs.1
    exact ⟨r, by simp [Finmap.lookup_insert]⟩
  · exact hobj

theorem exec_keeps_object {R E Rd : Type} (eng : Engine R E Rd) (pol : Conf R E → Bool)
    (K : Nat) (p : String) (st0 : State R)
    (hvalid : ∀ n, ∃ r, eng.Compile n p = (some r, none)) (sched : List Nat) :
    ∀ c c1 : Conf R E, Inv K p st0 c → exec eng pol K p sched c = some c1 →
      (∃ r, c.regexMap.lookup p = some (some r)) →
        ∃ r, c1.regexMap.lookup p = some (some r) := by
  induction sched with
  | nil =>
    intro c c1 _ h hobj
    simp only [exec, Option.some.injEq] at h
    exact h ▸ hobj
  | cons i sched ih =>
    intro c c1 hinv h hobj
    simp only [exec] at h
    split at h
    · rename_i c2 hstep
      exact ih c2 c1 (inv_step eng pol K p st0 hvalid i c c2 hinv hstep) h
        (stepThread_keeps_object eng pol K p st0 i c c2 hinv hstep hobj)
    · cases h

/-! ## Single calls of `getRegexpObject` -/

/-- C1, as the claim states it, fails: from the empty map, resolving `"["` makes
the engine return an error, `getRegexpObject` returns that error, and yet the
map is not what it was: the key `"["` is now present, stored with a nil
pointer. -/
theorem C1_failed_compile_changes_map :
    (demoEngine.Compile 0 "[").2 = some "missing closing ]" ∧
    (getRegexpObject demoEngine "[" (State.init (Nat × String))).1
      = (none, some "missing closing ]") ∧
    "[" ∉ (State.init (Nat × String)).regexMap.keys ∧
    "[" ∈ (getRegexpObject demoEngine "[" (State.init (Nat × String))).2.regexMap.keys ∧
    (getRegexpObject demoEngine "[" (State.init (Nat × String))).2.regexMap.lookup "["
      = some none ∧
    (getRegexpObject demoEngine "[" (State.init (Nat × String))).2.regexMap
      ≠ (State.init (Nat × String)).regexMap := by
  decide

/-- C1, amended: a failed compilation caches no object.  When `regexMap[k]` reads
nil and the engine answers `(nil, e)`, `getRegexpObject k` returns `(nil, e)`;
the map afterwards is the old one with `k` stored as nil, so `regexMap[j]` reads
as before for every key `j`, and every key other than `k` keeps its entry.
And whenever a call changes the map at all, it was a miss. -/
theorem C1_failed_compile_caches_no_object {R E Rd : Type} (eng : Engine R E Rd) (k : String)
    (st : State R) :
    (∀ e : E, index st.regexMap k = none →
      eng.Compile (compiles st.trace).length k = (none, some e) →
        (getRegexpObject eng k st).1 = (none, some e) ∧
        (getRegexpObject eng k st).2.regexMap = st.regexMap.insert k none ∧
        (∀ j, index (getRegexpObject eng k st).2.regexMap j = index st.regexMap j) ∧
        (∀ j, j ≠ k →
          (getRegexpObject eng k st).2.regexMap.lookup j = st.regexMap.lookup j)) ∧
    ((getRegexpObject eng k st).2.regexMap ≠ st.regexMap → index st.regexMap k = none) := by
  refine ⟨?_, ?_⟩
  · intro e hmiss hfail
    rw [getRegexpObject_miss eng k st hmiss, hfail]
    refine ⟨rfl, rfl, ?_, ?_⟩
    · intro j
      by_cases hj : j = k
      · subst hj
        simp [index_insert_self, hmiss]
      · simp [index_insert_of_ne _ _ hj]
    · intro j hj
      simp [Finmap.lookup_insert_of_ne _ hj]
  · intro hne
    cases h : index st.regexMap k with
    | none => rfl
    | some r =>
      rw [getRegexpObject_hit eng k st r h] at hne
      exact absurd rfl hne

/-- The amended C1 at a concrete input: the empty cache and the text `"["`. -/
theorem C1_failed_compile_caches_no_object_witness :
    index (State.init (Nat × String)).regexMap "[" = none ∧
    demoEngine.Compile (compiles (State.init (Nat × String)).trace).length "["
      = (none, some "missing closing ]") ∧
    (getRegexpObject demoEngine "[" (State.init (Nat × String))).1
      = (none, some "missing closing ]") ∧
    (getRegexpObject demoEngine "[" (State.init (Nat × String))).2.regexMap
      = (State.init (Nat × String)).regexMap.insert "[" none :=
  have h := (C1_failed_compile_caches_no_object demoEngine "["
    (State.init (Nat × String))).1 "missing closing ]" (by decide) (by decide)
  ⟨by decide, by decide, h.1, h.2.1⟩

/-- C2: a cache hit.  When the map holds the compiled object `r` under `k`,
`getRegexpObject k` returns `(r, nil)`, the engine is not asked to compile
anything, the map is unchanged, and the call does nothing but the locked read. -/
theorem C2_cache_hit {R E Rd : Type} (eng : Engine R E Rd) (k : String) (st : State R) (r : R)
    (h : st.regexMap.lookup k = some (some r)) :
    (getRegexpObject eng k st).1 = (some r, none) ∧
    (getRegexpObject eng k st).2.regexMap = st.regexMap ∧
    compiles (getRegexpObject eng k st).2.trace = compiles st.trace ∧
    (getRegexpObject eng k st).2.trace
      = st.trace ++ [Event.RLock, Event.Read k, Event.RUnlock] := by
  rw [getRegexpObject_hit eng k st r ((index_eq_some_iff _ _ _).2 h)]
  simp [compiles_append, compiles]

/-- C2 at a concrete input: a map holding `"ab"`, resolved again. -/
theorem C2_cache_hit_witness :
    (getRegexpObject demoEngine "ab" (State.init (Nat × String))).2.regexMap.lookup "ab"
      = some (some (0, "ab")) ∧
    (getRegexpObject demoEngine "ab"
      (getRegexpObject demoEngine "ab" (State.init (Nat × String))).2).1
      = (some (0, "ab"), none) :=
  ⟨by decide,
    (C2_cache_hit demoEngine "ab" (getRegexpObject demoEngine "ab" (State.init (Nat × String))).2
      (0, "ab") (by decide)).1⟩

/-- C3: a miss with a successful compilation.  When `k` is not in the map and the
engine answers `(r, nil)`, `getRegexpObject k` returns `(r, nil)` and the map
afterwards is the old map with `k` mapped to `r`: `k` reads `r`, every other
key has the entry it had. -/
theorem C3_miss_compiles_and_inserts {R E Rd : Type} (eng : Engine R E Rd) (k : String)
    (st : State R) (r : R) (habs : st.regexMap.lookup k = none)
    (hok : eng.Compile (compiles st.trace).length k = (some r, none)) :
    (getRegexpObject eng k st).1 = (some r, none) ∧
    (getRegexpObject eng k st).2.regexMap = st.regexMap.insert k (some r) ∧
    (getRegexpObject eng k st).2.regexMap.lookup k = some (some r) ∧
    (∀ j, j ≠ k →
      (getRegexpObject eng k st).2.regexMap.lookup j = st.regexMap.lookup j) ∧
    compiles (getRegexpObject eng k st).2.trace = compiles st.trace ++ [k] := by
  rw [getRegexpObject_miss eng k st (index_eq_none_of_lookup_none habs), hok]
  refine ⟨rfl, rfl, ?_, ?_, ?_⟩
  · simp [Finmap.lookup_insert]
  · intro j hj
    simp [Finmap.lookup_insert_of_ne _ hj]
  · simp [compiles_append, compiles]

/-- C3 at a concrete input: the empty cache and the text `"ab"`. -/
theorem C3_miss_compiles_and_inserts_witness :
    (State.init (Nat × String)).regexMap.lookup "ab" = none ∧
    (getRegexpObject demoEngine "ab" (State.init (Nat × String))).1 = (some (0, "ab"), none) ∧
    (getRegexpObject demoEngine "ab" (State.init (Nat × String))).2.regexMap
      = (State.init (Nat × String)).regexMap.insert "ab" (some (0, "ab")) :=
  have h := C3_miss_compiles_and_inserts demoEngine "ab" (State.init (Nat × String)) (0, "ab")
    (by decide) (by decide)
  ⟨by decide, h.1, h.2.1⟩

/-! ## Repeated calls -/

/-- C4: cache hit transparency.  For a pattern `p` that is not cached (`regexMap[p]`
reads nil) and that the engine compiles, `N ≥ 1` calls made one after the other with pattern `p`
(each of them `getRegexpObject`, `Match`, `MatchReader` or `MatchString`, on any
input) make the engine compile exactly once in total: `p` is appended once to
the list of compilations.  And after one successful `getRegexpObject p`, whatever
calls follow, a later call with pattern `p` compiles nothing. -/
theorem C4_cache_hit_transparency {R E Rd : Type} (eng : Engine R E Rd) (p : String)
    (st : State R) (r : R) :
    (∀ (N : Nat) (ops : List (Op Rd)), 1 ≤ N → ops.length = N →
      (∀ op ∈ ops, op.pattern = p) →
      index st.regexMap p = none →
      eng.Compile (compiles st.trace).length p = (some r, none) →
        compiles (run eng ops st).trace = compiles st.trace ++ [p]) ∧
    ((getRegexpObject eng p st).1 = (some r, none) →
      ∀ (ops : List (Op Rd)) (op : Op Rd), op.pattern = p →
        compiles (step eng (run eng ops (getRegexpObject eng p st).2) op).trace
          = compiles (run eng ops (getRegexpObject eng p st).2).trace) := by
  refine ⟨?_, ?_⟩
  · intro N ops hN hlen hpat habs hok
    cases ops with
    | nil => simp at hlen; omega
    | cons op ops =>
      have hop : op.pattern = p := hpat op (List.mem_cons_self _ _)
      have hfirst := getRegexpObject_miss_ok eng p st r habs hok
      have hmap : (step eng st op).regexMap.lookup p = some (some r) := by
        rw [step_regexMap, hop]; exact hfirst.1
      have hcomp : compiles (step eng st op).trace = compiles st.trace ++ [p] := by
        rw [step_compiles, hop]; exact hfirst.2
      have hrest := run_of_cached eng p r ops (step eng st op) hmap
        (fun o ho => hpat o (List.mem_cons_of_mem _ ho))
      rw [run_cons, hrest.2, hcomp]
  · intro hres ops op hop
    have h1 := getRegexpObject_ok_cached eng st p r hres
    have h2 := run_keeps_entry eng ops (getRegexpObject eng p st).2 p r h1
    exact (step_of_cached eng _ op r (hop ▸ h2)).2

/-- C4 at a concrete input: on the empty cache, `MatchString`, `getRegexpObject`
and `Match` with the pattern `"foo"` compile it once. -/
theorem C4_cache_hit_transparency_witness :
    compiles (run demoEngine
        [Op.MatchString "foo" "foobar", Op.getRegexpObject "foo", Op.Match "foo" []]
        (State.init (Nat × String))).trace
      = compiles (State.init (Nat × String)).trace ++ ["foo"] :=
  (C4_cache_hit_transparency demoEngine "foo" (State.init (Nat × String)) (0, "foo")).1 3
    [Op.MatchString "foo" "foobar", Op.getRegexpObject "foo", Op.Match "foo" []]
    (by decide) (by decide) (by decide) (by decide) (by decide)

/-- C5: no negative caching.  For a pattern `p` that the engine rejects with `e`
(it answers `(nil, e)` whenever asked), in every state the process can reach
and for every `N` (so for every `N ≥ 1`), `N` calls of `getRegexpObject p` made one after the other
make the engine compile `p` exactly `N` times, and each of the calls returns
`(nil, e)`. -/
theorem C5_no_negative_caching {R E Rd : Type} (eng : Engine R E Rd) (p : String) (e : E)
    (st : State R) (N : Nat) (hbad : ∀ n, eng.Compile n p = (none, some e))
    (hreach : Reachable eng st) :
    compiles (run eng (List.replicate N (Op.getRegexpObject p : Op Rd)) st).trace
      = compiles st.trace ++ List.replicate N p ∧
    (∀ i, i < N →
      (getRegexpObject eng p
        (run eng (List.replicate i (Op.getRegexpObject p : Op Rd)) st)).1 = (none, some e)) := by
  have hbad1 : ∀ n, (eng.Compile n p).1 = none := fun n => by rw [hbad n]
  have h0 := index_none_of_invalid eng st hreach p hbad1
  refine ⟨(run_replicate_invalid eng p hbad1 N st h0).2, ?_⟩
  intro i _
  have hi := (run_replicate_invalid eng p hbad1 i st h0).1
  rw [getRegexpObject_miss eng p _ hi, hbad]

/-- C5 at a concrete input: after `"ab"` was matched, three resolutions of `"["`. -/
theorem C5_no_negative_caching_witness :
    compiles (run demoEngine (List.replicate 3 (Op.getRegexpObject "["))
        (run demoEngine [Op.MatchString "ab" "abc"] (State.init (Nat × String)))).trace
      = compiles (run demoEngine [Op.MatchString "ab" "abc"]
          (State.init (Nat × String))).trace ++ List.replicate 3 "[" ∧
    (∀ i, i < 3 →
      (getRegexpObject demoEngine "["
        (run demoEngine (List.replicate i (Op.getRegexpObject "["))
          (run demoEngine [Op.MatchString "ab" "abc"] (State.init (Nat × String))))).1
        = (none, some "missing closing ]")) :=
  C5_no_negative_caching demoEngine "[" "missing closing ]"
    (run demoEngine [Op.MatchString "ab" "abc"] (State.init (Nat × String))) 3
    (fun _ => rfl) ⟨[Op.MatchString "ab" "abc"], rfl⟩

/-! ## The entry points -/

/-- C6: the entry points short-circuit on an error.  If resolving the pattern
returns the error `e`, then each of `Match`, `MatchReader` and `MatchString`
returns exactly `(false, e)` in the state the resolution left, with no call of
a match method recorded and the reader handed back untouched.  And none of
the three ever returns a non-nil error together with `true`. -/
theorem C6_facade_error_short_circuit {R E Rd : Type} (eng : Engine R E Rd) (pattern : String)
    (st : State R) (b : List UInt8) (rd : Rd) (s : String) :
    (∀ e : E, (getRegexpObject eng pattern st).1.2 = some e →
      Match eng pattern b st = (Ret.ok false (some e), (getRegexpObject eng pattern st).2) ∧
      MatchReader eng pattern rd st
        = (Ret.ok false (some e), rd, (getRegexpObject eng pattern st).2) ∧
      MatchString eng pattern s st
        = (Ret.ok false (some e), (getRegexpObject eng pattern st).2) ∧
      matchCalls (Match eng pattern b st).2.trace = matchCalls st.trace ∧
      matchCalls (MatchReader eng pattern rd st).2.2.trace = matchCalls st.trace ∧
      matchCalls (MatchString eng pattern s st).2.trace = matchCalls st.trace) ∧
    (∀ (v : Bool) (err : E), (Match eng pattern b st).1 = Ret.ok v (some err) → v = false) ∧
    (∀ (v : Bool) (err : E),
      (MatchReader eng pattern rd st).1 = Ret.ok v (some err) → v = false) ∧
    (∀ (v : Bool) (err : E),
      (MatchString eng pattern s st).1 = Ret.ok v (some err) → v = false) := by
  refine ⟨?_, ?_, ?_, ?_⟩
  · intro e he
    have hM : Match eng pattern b st
        = (Ret.ok false (some e), (getRegexpObject eng pattern st).2) := by
      simp [Match, he]
    have hR : MatchReader eng pattern rd st
        = (Ret.ok false (some e), rd, (getRegexpObject eng pattern st).2) := by
      simp [MatchReader, he]
    have hS : MatchString eng pattern s st
        = (Ret.ok false (some e), (getRegexpObject eng pattern st).2) := by
      simp [MatchString, he]
    refine ⟨hM, hR, hS, ?_, ?_, ?_⟩
    · rw [hM]; exact matchCalls_getRegexpObject eng pattern st
    · rw [hR]; exact matchCalls_getRegexpObject eng pattern st
    · rw [hS]; exact matchCalls_getRegexpObject eng pattern st
  · intro v err h
    simp only [Match] at h
    split at h
    · simp only [Ret.ok.injEq] at h; exact h.1.symm
    · split at h
      · cases h
      · simp at h
  · intro v err h
    simp only [MatchReader] at h
    split at h
    · simp only [Ret.ok.injEq] at h; exact h.1.symm
    · split at h
      · cases h
      · simp at h
  · intro v err h
    simp only [MatchString] at h
    split at h
    · simp only [Ret.ok.injEq] at h; exact h.1.symm
    · split at h
      · cases h
      · simp at h

/-- C6 at a concrete input: the malformed pattern `"["` on the empty cache. -/
theorem C6_facade_error_short_circuit_witness :
    (getRegexpObject demoEngine "[" (State.init (Nat × String))).1.2
      = some "missing closing ]" ∧
    MatchString demoEngine "[" "anything" (State.init (Nat × String))
      = (Ret.ok false (some "missing closing ]"),
          (getRegexpObject demoEngine "[" (State.init (Nat × String))).2) ∧
    MatchReader demoEngine "[" ['a', 'b'] (State.init (Nat × String))
      = (Ret.ok false (some "missing closing ]"), ['a', 'b'],
          (getRegexpObject demoEngine "[" (State.init (Nat × String))).2) :=
  have h := (C6_facade_error_short_circuit demoEngine "[" (State.init (Nat × String)) []
    ['a', 'b'] "anything").1 "missing closing ]" (by decide)
  ⟨by decide, h.2.2.1, h.2.1⟩

/-- C7: the cache is transparent to matching.  With an engine that is a
deterministic function of the text, in every state reachable from the empty
cache, `MatchString`, `Match` and `MatchReader` return what the uncached
reference returns: `(match r x, nil)` when compiling `p` gives `(r, nil)`, and
`(false, e)` when compiling `p` gives `(nil, e)`; `MatchReader` also leaves the
reader as the reference does. -/
theorem C7_cache_transparent {R E Rd : Type} (eng : Engine R E Rd) (st : State R) (p : String)
    (b : List UInt8) (rd : Rd) (x : String) (n : Nat)
    (hdet : Deterministic eng) (hreach : Reachable eng st) :
    (∀ r : R, eng.Compile 0 p = (some r, none) →
      (MatchString eng p x st).1 = Ret.ok (eng.MatchString r x) none ∧
      (Match eng p b st).1 = Ret.ok (eng.Match r b) none ∧
      ((MatchReader eng p rd st).1, (MatchReader eng p rd st).2.1)
        = (Ret.ok (eng.MatchReader r rd).1 none, (eng.MatchReader r rd).2) ∧
      (MatchString eng p x st).1 = uncachedMatchString eng n p x ∧
      (Match eng p b st).1 = uncachedMatch eng n p b ∧
      ((MatchReader eng p rd st).1, (MatchReader eng p rd st).2.1)
        = uncachedMatchReader eng n p rd) ∧
    (∀ e : E, eng.Compile 0 p = (none, some e) →
      (MatchString eng p x st).1 = Ret.ok false (some e) ∧
      (Match eng p b st).1 = Ret.ok false (some e) ∧
      ((MatchReader eng p rd st).1, (MatchReader eng p rd st).2.1)
        = (Ret.ok false (some e), rd) ∧
      (MatchString eng p x st).1 = uncachedMatchString eng n p x ∧
      (Match eng p b st).1 = uncachedMatch eng n p b ∧
      ((MatchReader eng p rd st).1, (MatchReader eng p rd st).2.1)
        = uncachedMatchReader eng n p rd) := by
  refine ⟨?_, ?_⟩
  · intro r hr
    have hres : (getRegexpObject eng p st).1 = (some r, none) := by
      rw [getRegexpObject_eq_compile eng st hdet hreach p (Or.inr (by rw [hr])), hr]
    have hn : eng.Compile n p = (some r, none) := (hdet n p).trans hr
    simp [MatchString, Match, MatchReader, uncachedMatchString, uncachedMatch,
      uncachedMatchReader, hres, hn]
  · intro e he
    have hres : (getRegexpObject eng p st).1 = (none, some e) := by
      rw [getRegexpObject_eq_compile eng st hdet hreach p (Or.inl (by rw [he])), he]
    have hn : eng.Compile n p = (none, some e) := (hdet n p).trans he
    simp [MatchString, Match, MatchReader, uncachedMatchString, uncachedMatch,
      uncachedMatchReader, hres, hn]

/-- C7 at a concrete input: after `"ab"` and `"["` were used, `MatchString` with
`"ab"` on `"abc"` and with `"["` on `"anything"`. -/
theorem C7_cache_transparent_witness :
    Deterministic pureEngine ∧
    Reachable pureEngine
      (run pureEngine [Op.MatchString "ab" "ac", Op.Match "[" []] (State.init String)) ∧
    (MatchString pureEngine "ab" "abc"
      (run pureEngine [Op.MatchString "ab" "ac", Op.Match "[" []] (State.init String))).1
      = Ret.ok true none ∧
    (MatchString pureEngine "ab" "abc"
      (run pureEngine [Op.MatchString "ab" "ac", Op.Match "[" []] (State.init String))).1
      = uncachedMatchString pureEngine 7 "ab" "abc" :=
  have hdet : Deterministic pureEngine := fun _ _ => rfl
  have hreach : Reachable pureEngine
      (run pureEngine [Op.MatchString "ab" "ac", Op.Match "[" []] (State.init String)) :=
    ⟨[Op.MatchString "ab" "ac", Op.Match "[" []], rfl⟩
  have h := (C7_cache_transparent pureEngine
    (run pureEngine [Op.MatchString "ab" "ac", Op.Match "[" []] (State.init String))
    "ab" [] [] "abc" 7 hdet hreach).1 "ab" (by decide)
  ⟨hdet, hreach, h.1, h.2.2.2.1⟩

/-! ## Invariants and frame properties of the cache -/

/-- C8, as the claim states it, fails when calls overlap: two goroutines resolve
`"x"` on the empty cache and both miss.  When the first has stored its object
and returned, `"x"` is mapped to `(0, "x")`; two actions later the second has
stored the object it compiled, and `"x"` is mapped to `(1, "x")`: the value was
replaced. -/
theorem C8_overlapping_call_replaces_object :
    ((exec demoEngine (fun _ => true) 2 "x" [0, 0, 0, 1, 1, 1, 0, 1, 0, 0, 1, 0, 0]
        (Conf.init String (State.init (Nat × String)))).map
      fun c => ((c.pc 0).returned, c.regexMap.lookup "x"))
      = some (true, some (some (0, "x"))) ∧
    ((exec demoEngine (fun _ => true) 2 "x"
        ([0, 0, 0, 1, 1, 1, 0, 1, 0, 0, 1, 0, 0] ++ [1, 1])
        (Conf.init String (State.init (Nat × String)))).map
      fun c => c.regexMap.lookup "x")
      = some (some (some (1, "x"))) ∧
    ((0, "x") : Nat × String) ≠ (1, "x") := by
  decide

/-- C8, amended: the map is append-only in the success case when calls are made
one after the other.  In every sequence of whole calls, once a key is mapped to
a compiled object (after the calls `ops`), no later calls `later` remove the
key or replace its value: it is still mapped to that same object, and still
among the keys.  When calls for a pattern the engine compiles overlap, a key
that holds an object is not removed either and always holds an object, in
every interleaving, though not always the same one. -/
theorem C8_append_only_sequential {R E Rd : Type} (eng : Engine R E Rd) (st : State R)
    (k : String) (r : R) :
    (∀ ops later : List (Op Rd), (run eng ops st).regexMap.lookup k = some (some r) →
      (run eng (ops ++ later) st).regexMap.lookup k = some (some r) ∧
      k ∈ (run eng (ops ++ later) st).regexMap.keys) ∧
    (∀ (pol : Conf R E → Bool) (K : Nat) (sched more : List Nat) (c c2 : Conf R E),
      (∀ n, ∃ r1, eng.Compile n k = (some r1, none)) →
      exec eng pol K k sched (Conf.init E st) = some c →
      c.regexMap.lookup k = some (some r) →
      exec eng pol K k more c = some c2 →
        (∃ r2, c2.regexMap.lookup k = some (some r2)) ∧ k ∈ c2.regexMap.keys) := by
  refine ⟨?_, ?_⟩
  · intro ops later h
    have hk : (run eng (ops ++ later) st).regexMap.lookup k = some (some r) := by
      rw [run_append]
      exact run_keeps_entry eng later _ k r h
    exact ⟨hk, Finmap.mem_keys.2 (Finmap.mem_of_lookup_eq_some hk)⟩
  · intro pol K sched more c c2 hvalid hexec hk hmore
    have hinv : Inv K k st c :=
      inv_exec eng pol K k st hvalid sched _ c (inv_init K k st) hexec
    obtain ⟨r2, hr2⟩ := exec_keeps_object eng pol K k st hvalid more c c2 hinv hmore ⟨r, hk⟩
    exact ⟨⟨r2, hr2⟩, Finmap.mem_keys.2 (Finmap.mem_of_lookup_eq_some hr2)⟩

/-- The amended C8 at a concrete input: `"ab"` is compiled first; later calls, with
`"ab"` again, with other patterns and with a malformed one, leave its entry
alone. -/
theorem C8_append_only_sequential_witness :
    (run demoEngine [Op.MatchString "ab" "abc"]
      (State.init (Nat × String))).regexMap.lookup "ab" = some (some (0, "ab")) ∧
    (run demoEngine ([Op.MatchString "ab" "abc"] ++
        [Op.getRegexpObject "ab", Op.Match "[" [], Op.MatchReader "cd" ['c'],
          Op.getRegexpObject "ab"])
      (State.init (Nat × String))).regexMap.lookup "ab" = some (some (0, "ab")) :=
  ⟨by decide,
    ((C8_append_only_sequential demoEngine (State.init (Nat × String)) "ab" (0, "ab")).1
      [Op.MatchString "ab" "abc"]
      [Op.getRegexpObject "ab", Op.Match "[" [], Op.MatchReader "cd" ['c'],
        Op.getRegexpObject "ab"] (by decide)).1⟩

/-- C9: errors are surfaced verbatim.  `getRegexpObject k` returns the non-nil
error `e` exactly when the call made the engine compile `k` and the engine
answered with the error `e`.  Every call either compiles nothing and returns a
nil error, or compiles `k` once and returns the very pair the engine answered:
the cache has no error of its own. -/
theorem C9_errors_verbatim {R E Rd : Type} (eng : Engine R E Rd) (k : String) (st : State R)
    (e : E) :
    ((getRegexpObject eng k st).1.2 = some e ↔
      (compiles (getRegexpObject eng k st).2.trace = compiles st.trace ++ [k] ∧
        (eng.Compile (compiles st.trace).length k).2 = some e)) ∧
    ((compiles (getRegexpObject eng k st).2.trace = compiles st.trace ∧
        (getRegexpObject eng k st).1.2 = none) ∨
      (compiles (getRegexpObject eng k st).2.trace = compiles st.trace ++ [k] ∧
        (getRegexpObject eng k st).1 = eng.Compile (compiles st.trace).length k)) := by
  cases hs : index st.regexMap k with
  | some r =>
    rw [getRegexpObject_hit eng k st r hs]
    simp [compiles_append, compiles]
  | none =>
    rw [getRegexpObject_miss eng k st hs]
    simp [compiles_append, compiles]

/-- C10: key exactness.  For distinct keys `k1 ≠ k2`, `getRegexpObject k1` leaves
the entry of `k2` as it is, compiles nothing but possibly `k1`, does no read,
write or compilation for `k2`, and does not depend on the entry of `k2`: started on a state that differs only in the entry
of `k2` it returns the same pair, does the same events, and leaves maps that
again differ only in the entry of `k2`.  Resolving both keys from the empty
cache, the engine compiling both, compiles once per key and leaves exactly the
two entries, one per key. -/
theorem C10_key_exactness {R E Rd : Type} (eng : Engine R E Rd) (k1 k2 : String)
    (hne : k1 ≠ k2) (st : State R) :
    (getRegexpObject eng k1 st).2.regexMap.lookup k2 = st.regexMap.lookup k2 ∧
    (compiles (getRegexpObject eng k1 st).2.trace = compiles st.trace ∨
      compiles (getRegexpObject eng k1 st).2.trace = compiles st.trace ++ [k1]) ∧
    (∃ done : List Event, (getRegexpObject eng k1 st).2.trace = st.trace ++ done ∧
      Event.Read k2 ∉ done ∧ Event.Write k2 ∉ done ∧ Event.Compile k2 ∉ done) ∧
    (∀ st2 : State R, st2.trace = st.trace →
      (∀ j, j ≠ k2 → st2.regexMap.lookup j = st.regexMap.lookup j) →
        (getRegexpObject eng k1 st2).1 = (getRegexpObject eng k1 st).1 ∧
        (getRegexpObject eng k1 st2).2.trace = (getRegexpObject eng k1 st).2.trace ∧
        (∀ j, j ≠ k2 → (getRegexpObject eng k1 st2).2.regexMap.lookup j
          = (getRegexpObject eng k1 st).2.regexMap.lookup j) ∧
        (getRegexpObject eng k1 st2).2.regexMap.lookup k2 = st2.regexMap.lookup k2) ∧
    (∀ r1 r2 : R, eng.Compile 0 k1 = (some r1, none) → eng.Compile 1 k2 = (some r2, none) →
      compiles (run eng [(Op.getRegexpObject k1 : Op Rd), Op.getRegexpObject k2]
        (State.init R)).trace = [k1, k2] ∧
      (run eng [(Op.getRegexpObject k1 : Op Rd), Op.getRegexpObject k2]
        (State.init R)).regexMap = Finmap.insert k2 (some r2) (Finmap.insert k1 (some r1) ∅) ∧
      (run eng [(Op.getRegexpObject k1 : Op Rd), Op.getRegexpObject k2]
        (State.init R)).regexMap.keys = {k1, k2} ∧
      (run eng [(Op.getRegexpObject k1 : Op Rd), Op.getRegexpObject k2]
        (State.init R)).regexMap.keys.card = 2 ∧
      (run eng [(Op.getRegexpObject k1 : Op Rd), Op.getRegexpObject k2]
        (State.init R)).regexMap.lookup k1 = some (some r1) ∧
      (run eng [(Op.getRegexpObject k1 : Op Rd), Op.getRegexpObject k2]
        (State.init R)).regexMap.lookup k2 = some (some r2)) := by
  have hframe : ∀ s : State R,
      (getRegexpObject eng k1 s).2.regexMap.lookup k2 = s.regexMap.lookup k2 := by
    intro s
    cases hs : index s.regexMap k1 with
    | some r => rw [getRegexpObject_hit eng k1 s r hs]
    | none =>
      rw [getRegexpObject_miss eng k1 s hs]
      simp [Finmap.lookup_insert_of_ne _ hne.symm]
  refine ⟨hframe st, ?_, ?_, ?_, ?_⟩
  · cases hs : index st.regexMap k1 with
    | some r =>
      rw [getRegexpObject_hit eng k1 st r hs]
      left
      simp [compiles_append, compiles]
    | none =>
      rw [getRegexpObject_miss eng k1 st hs]
      right
      simp [compiles_append, compiles]
  · cases hs : index st.regexMap k1 with
    | some r =>
      rw [getRegexpObject_hit eng k1 st r hs]
      exact ⟨_, rfl, by simp [hne.symm], by simp, by simp⟩
    | none =>
      rw [getRegexpObject_miss eng k1 st hs]
      exact ⟨_, rfl, by simp [hne.symm], by simp [hne.symm], by simp [hne.symm]⟩
  · intro st2 htr hagree
    have hidx : index st2.regexMap k1 = index st.regexMap k1 := by
      simp [index, hagree k1 hne]
    refine ⟨?_, ?_, ?_, hframe st2⟩
    · cases hs : index st.regexMap k1 with
      | some r =>
        rw [getRegexpObject_hit eng k1 st r hs,
          getRegexpObject_hit eng k1 st2 r (hidx.trans hs)]
      | none =>
        rw [getRegexpObject_miss eng k1 st hs,
          getRegexpObject_miss eng k1 st2 (hidx.trans hs), htr]
    · cases hs : index st.regexMap k1 with
      | some r =>
        rw [getRegexpObject_hit eng k1 st r hs,
          getRegexpObject_hit eng k1 st2 r (hidx.trans hs), htr]
      | none =>
        rw [getRegexpObject_miss eng k1 st hs,
          getRegexpObject_miss eng k1 st2 (hidx.trans hs), htr]
    · intro j hj
      cases hs : index st.regexMap k1 with
      | some r =>
        rw [getRegexpObject_hit eng k1 st r hs,
          getRegexpObject_hit eng k1 st2 r (hidx.trans hs)]
        exact hagree j hj
      | none =>
        rw [getRegexpObject_miss eng k1 st hs,
          getRegexpObject_miss eng k1 st2 (hidx.trans hs), htr]
        by_cases hjk : j = k1
        · subst hjk
          simp [Finmap.lookup_insert]
        · simp [Finmap.lookup_insert_of_ne _ hjk, hagree j hj]
  · intro r1 r2 h1 h2
    have hst1 : (getRegexpObject eng k1 (State.init R)).2
        = { regexMap := Finmap.insert k1 (some r1) ∅
            trace := [Event.RLock, Event.Read k1, Event.RUnlock, Event.Compile k1,
              Event.Lock, Event.Write k1, Event.Unlock] } := by
      rw [getRegexpObject_miss eng k1 (State.init R) (by simp [index, State.init])]
      simp [State.init, compiles, h1]
    have hrun : run eng [(Op.getRegexpObject k1 : Op Rd), Op.getRegexpObject k2] (State.init R)
        = { regexMap := Finmap.insert k2 (some r2) (Finmap.insert k1 (some r1) ∅)
            trace := [Event.RLock, Event.Read k1, Event.RUnlock, Event.Compile k1,
              Event.Lock, Event.Write k1, Event.Unlock, Event.RLock, Event.Read k2,
              Event.RUnlock, Event.Compile k2, Event.Lock, Event.Write k2, Event.Unlock] } := by
      simp only [run, List.foldl, step]
      rw [hst1, getRegexpObject_miss eng k2 _
        (by simp [index, Finmap.lookup_insert_of_ne _ hne.symm])]
      simp [compiles, h2]
    rw [hrun]
    refine ⟨by simp [compiles], rfl, keys_insert_insert_empty k1 k2 _ _, ?_, ?_, ?_⟩
    · simp only [keys_insert_insert_empty]
      exact Finset.card_pair hne
    · simp [Finmap.lookup_insert_of_ne _ hne, Finmap.lookup_insert]
    · simp [Finmap.lookup_insert]

/-- C10 at a concrete input: the keys `"a.b"` and `"a\\.b"` from the empty cache. -/
theorem C10_key_exactness_witness :
    "a.b" ≠ "a\\.b" ∧
    compiles (run demoEngine [Op.getRegexpObject "a.b", Op.getRegexpObject "a\\.b"]
      (State.init (Nat × String))).trace = ["a.b", "a\\.b"] ∧
    (run demoEngine [Op.getRegexpObject "a.b", Op.getRegexpObject "a\\.b"]
      (State.init (Nat × String))).regexMap.keys.card = 2 :=
  have h := (C10_key_exactness demoEngine "a.b" "a\\.b" (by decide)
    (State.init (Nat × String))).2.2.2.2 (0, "a.b") (1, "a\\.b") (by decide) (by decide)
  ⟨by decide, h.1, h.2.2.2.1⟩

/-! ## Resolving the same pattern again -/

/-- C11: successful resolution is idempotent.  For a pattern `p` the engine
compiles whenever asked, in every state, `getRegexpObject p` returns an object
`r` with a nil error, and a second call made right after it, or after any
further calls, returns that very object `r`; so the objects of two calls
made one after the other give the same verdict on every input. -/
theorem C11_idempotent_resolution {R E Rd : Type} (eng : Engine R E Rd) (p : String)
    (st : State R) (hvalid : ∀ n, ∃ r, eng.Compile n p = (some r, none)) :
    ∃ r : R,
      (getRegexpObject eng p st).1 = (some r, none) ∧
      (getRegexpObject eng p (getRegexpObject eng p st).2).1 = (some r, none) ∧
      (∀ later : List (Op Rd),
        (getRegexpObject eng p (run eng later (getRegexpObject eng p st).2)).1
          = (some r, none)) ∧
      (∀ r1 r2 : R, (getRegexpObject eng p st).1.1 = some r1 →
        (getRegexpObject eng p (getRegexpObject eng p st).2).1.1 = some r2 →
          (∀ b, eng.Match r1 b = eng.Match r2 b) ∧
          (∀ rd, eng.MatchReader r1 rd = eng.MatchReader r2 rd) ∧
          (∀ x, eng.MatchString r1 x = eng.MatchString r2 x)) := by
  have hfirst : ∃ r : R, (getRegexpObject eng p st).1 = (some r, none) := by
    cases hs : index st.regexMap p with
    | some r => exact ⟨r, by rw [getRegexpObject_hit eng p st r hs]⟩
    | none =>
      obtain ⟨r, hr⟩ := hvalid (compiles st.trace).length
      exact ⟨r, by rw [getRegexpObject_miss eng p st hs, hr]⟩
  obtain ⟨r, hr⟩ := hfirst
  have hcached := getRegexpObject_ok_cached eng st p r hr
  have hlater : ∀ later : List (Op Rd),
      (getRegexpObject eng p (run eng later (getRegexpObject eng p st).2)).1
        = (some r, none) := by
    intro later
    have h := run_keeps_entry eng later (getRegexpObject eng p st).2 p r hcached
    rw [getRegexpObject_hit eng p _ r ((index_eq_some_iff _ _ _).2 h)]
  have hsecond : (getRegexpObject eng p (getRegexpObject eng p st).2).1 = (some r, none) :=
    hlater []
  refine ⟨r, hr, hsecond, hlater, ?_⟩
  intro r1 r2 h1 h2
  rw [hr] at h1
  rw [hsecond] at h2
  simp only [Option.some.injEq] at h1 h2
  subst h1
  subst h2
  exact ⟨fun _ => rfl, fun _ => rfl, fun _ => rfl⟩

/-- C11 at a concrete input: `"ab"` resolved twice on the empty cache; both calls
return the object of the first compilation. -/
theorem C11_idempotent_resolution_witness :
    ∃ r : Nat × String,
      (getRegexpObject demoEngine "ab" (State.init (Nat × String))).1 = (some r, none) ∧
      (getRegexpObject demoEngine "ab"
        (getRegexpObject demoEngine "ab" (State.init (Nat × String))).2).1 = (some r, none) :=
  (C11_idempotent_resolution demoEngine "ab" (State.init (Nat × String))
    (fun n => ⟨(n, "ab"), by simp [demoEngine]⟩)).imp fun _ h => ⟨h.1, h.2.1⟩

/-! ## Nil entries -/

/-- C14: a failed compilation leaves a nil-valued entry.  When `k` is absent from
the map and the engine answers `(nil, e)`, after `getRegexpObject k` the map
holds `k` with a nil pointer and has one key more.  Resolving a list of
distinct absent texts that the engine rejects leaves each of them in the map
with a nil pointer, and the number of keys has grown by the length of the
list. -/
theorem C14_failed_compile_leaves_nil_entry {R E Rd : Type} (eng : Engine R E Rd)
    (st : State R) :
    (∀ (k : String) (e : E), st.regexMap.lookup k = none →
      eng.Compile (compiles st.trace).length k = (none, some e) →
        (getRegexpObject eng k st).2.regexMap.lookup k = some none ∧
        k ∈ (getRegexpObject eng k st).2.regexMap.keys ∧
        (getRegexpObject eng k st).2.regexMap.keys.card = st.regexMap.keys.card + 1) ∧
    (∀ ps : List String, ps.Nodup → (∀ p ∈ ps, st.regexMap.lookup p = none) →
      (∀ p ∈ ps, ∀ n, ∃ e, eng.Compile n p = (none, some e)) →
        (∀ p ∈ ps,
          (run eng (ps.map fun p => (Op.getRegexpObject p : Op Rd)) st).regexMap.lookup p
            = some none) ∧
        (run eng (ps.map fun p => (Op.getRegexpObject p : Op Rd)) st).regexMap.keys.card
          = st.regexMap.keys.card + ps.length) := by
  refine ⟨?_, ?_⟩
  · intro k e habs hfail
    have hnot : k ∉ st.regexMap.keys := fun hk =>
      (Finmap.lookup_eq_none.1 habs) (Finmap.mem_keys.1 hk)
    rw [getRegexpObject_keys]
    rw [getRegexpObject_miss eng k st (index_eq_none_of_lookup_none habs), hfail]
    refine ⟨by simp [Finmap.lookup_insert], Finset.mem_insert_self _ _, ?_⟩
    exact Finset.card_insert_of_not_mem hnot
  · intro ps hnd habs hbad
    have hpat : (List.map Op.pattern (ps.map fun p => (Op.getRegexpObject p : Op Rd))) = ps := by
      simp [List.map_map, Function.comp_def, Op.pattern]
    have hkeys := run_keys eng (ps.map fun p => (Op.getRegexpObject p : Op Rd)) st
    rw [hpat] at hkeys
    refine ⟨?_, ?_⟩
    · intro p hp
      have hidx : index (run eng (ps.map fun p => (Op.getRegexpObject p : Op Rd))
          st).regexMap p = none := by
        apply run_invalid_index eng _ _ p st (index_eq_none_of_lookup_none (habs p hp))
        intro op hop n
        obtain ⟨q, hq, rfl⟩ := List.mem_map.1 hop
        obtain ⟨e, he⟩ := hbad q hq n
        simp [Op.pattern, he]
      have hmem : p ∈ (run eng (ps.map fun p => (Op.getRegexpObject p : Op Rd))
          st).regexMap := by
        rw [← Finmap.mem_keys, hkeys]
        exact Finset.mem_union_right _ (List.mem_toFinset.2 hp)
      obtain ⟨v, hv⟩ := Finmap.mem_iff.1 hmem
      cases v with
      | none => exact hv
      | some r => simp [index, hv] at hidx
    · rw [hkeys, Finset.card_union_of_disjoint, List.toFinset_card_of_nodup hnd]
      rw [Finset.disjoint_left]
      intro j hj hjp
      exact (Finmap.lookup_eq_none.1 (habs j (List.mem_toFinset.1 hjp))) (Finmap.mem_keys.1 hj)

/-- C14 at a concrete input: the empty cache and the text `"["`. -/
theorem C14_failed_compile_leaves_nil_entry_witness :
    (State.init (Nat × String)).regexMap.lookup "[" = none ∧
    (getRegexpObject demoEngine "[" (State.init (Nat × String))).2.regexMap.lookup "["
      = some none ∧
    (getRegexpObject demoEngine "[" (State.init (Nat × String))).2.regexMap.keys.card
      = (State.init (Nat × String)).regexMap.keys.card + 1 :=
  have h := (C14_failed_compile_leaves_nil_entry demoEngine (State.init (Nat × String))).1
    "[" "missing closing ]" (by decide) (by decide)
  ⟨by decide, h.1, h.2.2⟩

/-- C15: no nil pattern is ever matched against.  If the engine returns a nil
object exactly when it returns an error, then in every state, also one where
keys are stored with nil, `getRegexpObject k` returns `(r, nil)` or `(nil, e)`
and never `(nil, nil)`; and `Match`, `MatchReader` and `MatchString` never end
in a method call on a nil object. -/
theorem C15_no_nil_match {R E Rd : Type} (eng : Engine R E Rd) (hc : CompileContract eng)
    (k : String) (st : State R) (b : List UInt8) (rd : Rd) (s : String) :
    ((∃ r, (getRegexpObject eng k st).1 = (some r, none)) ∨
      (∃ e, (getRegexpObject eng k st).1 = (none, some e))) ∧
    (getRegexpObject eng k st).1 ≠ (none, none) ∧
    (Match eng k b st).1 ≠ Ret.nilDeref ∧
    (MatchReader eng k rd st).1 ≠ Ret.nilDeref ∧
    (MatchString eng k s st).1 ≠ Ret.nilDeref := by
  have h := getRegexpObject_cases eng hc k st
  refine ⟨h, ?_, ?_, ?_, ?_⟩
  · rcases h with ⟨r, hr⟩ | ⟨e, he⟩
    · rw [hr]; simp
    · rw [he]; simp
  · rcases h with ⟨r, hr⟩ | ⟨e, he⟩
    · simp [Match, hr]
    · simp [Match, he]
  · rcases h with ⟨r, hr⟩ | ⟨e, he⟩
    · simp [MatchReader, hr]
    · simp [MatchReader, he]
  · rcases h with ⟨r, hr⟩ | ⟨e, he⟩
    · simp [MatchString, hr]
    · simp [MatchString, he]

/-- C15 at a concrete input: a state in which `"["` is stored with nil, and `"["`
matched again. -/
theorem C15_no_nil_match_witness :
    CompileContract demoEngine ∧
    (run demoEngine [Op.MatchString "[" "x"] (State.init (Nat × String))).regexMap.lookup "["
      = some none ∧
    (MatchString demoEngine "[" "anything"
      (run demoEngine [Op.MatchString "[" "x"] (State.init (Nat × String)))).1
      ≠ Ret.nilDeref :=
  have hc : CompileContract demoEngine := fun n s => by
    by_cases h : s = "[" <;> simp [demoEngine, h]
  ⟨hc, by decide,
    (C15_no_nil_match demoEngine hc "["
      (run demoEngine [Op.MatchString "[" "x"] (State.init (Nat × String)))
      [] [] "anything").2.2.2.2⟩

/-- C16: the cache is consistent with the engine.  With an engine that is a
deterministic function of the text and returns a nil object exactly when it
returns an error, in every state reachable from the empty cache a key `k`
stored with an object `r` has `Compile k = (r, nil)`, and a key stored with nil
is one whose compilation fails. -/
theorem C16_cache_consistent {R E Rd : Type} (eng : Engine R E Rd) (st : State R)
    (hdet : Deterministic eng) (hc : CompileContract eng) (hreach : Reachable eng st)
    (k : String) :
    (∀ r : R, st.regexMap.lookup k = some (some r) → eng.Compile 0 k = (some r, none)) ∧
    (st.regexMap.lookup k = some none → ∃ e, eng.Compile 0 k = (none, some e)) := by
  refine ⟨?_, ?_⟩
  · intro r h
    have hv := lookup_eq_compile eng st hdet hreach k (some r) h
    rcases compile_cases eng hc 0 k with ⟨r', hr'⟩ | ⟨e, he⟩
    · rw [hr'] at hv ⊢
      simp only [Option.some.injEq] at hv
      rw [hv]
    · rw [he] at hv
      cases hv
  · intro h
    have hv := lookup_eq_compile eng st hdet hreach k none h
    rcases compile_cases eng hc 0 k with ⟨r', hr'⟩ | ⟨e, he⟩
    · rw [hr'] at hv
      cases hv
    · exact ⟨e, he⟩

/-- C16 at a concrete input: after `"ab"` and `"["` were used, the entry of `"ab"`. -/
theorem C16_cache_consistent_witness :
    Deterministic pureEngine ∧ CompileContract pureEngine ∧
    (run pureEngine [Op.MatchString "ab" "ac", Op.Match "[" []]
      (State.init String)).regexMap.lookup "ab" = some (some "ab") ∧
    pureEngine.Compile 0 "ab" = (some "ab", none) :=
  have hdet : Deterministic pureEngine := fun _ _ => rfl
  have hc : CompileContract pureEngine := fun n s => by
    by_cases h : s = "[" <;> simp [pureEngine, h]
  ⟨hdet, hc, by decide,
    (C16_cache_consistent pureEngine
      (run pureEngine [Op.MatchString "ab" "ac", Op.Match "[" []] (State.init String))
      hdet hc ⟨[Op.MatchString "ab" "ac", Op.Match "[" []], rfl⟩ "ab").1 "ab" (by decide)⟩

/-! ## Locks -/

/-- C13: the locking discipline of one call of `getRegexpObject`.  The events of
the call pass the check of `lockWalk` from no lock held to no lock held, so
every lock taken is released before the call returns; the shared lock is held
for the read of the map only, at each call of the engine no lock is held, and
the exclusive lock is held for the write only.  A hit does the locked read and
nothing else, so it takes no exclusive lock; a miss does the locked read, the
compilation and the locked write, in this order. -/
theorem C13_locking_discipline {R E Rd : Type} (eng : Engine R E Rd) (k : String)
    (st : State R) :
    (getRegexpObject eng k st).2.trace = st.trace ++ callEvents eng k st ∧
    lockWalk Held.free (callEvents eng k st) = some Held.free ∧
    (∀ pre post s, callEvents eng k st = pre ++ Event.Read s :: post →
      lockWalk Held.free pre = some Held.shared) ∧
    (∀ pre post s, callEvents eng k st = pre ++ Event.Compile s :: post →
      lockWalk Held.free pre = some Held.free) ∧
    (∀ pre post s, callEvents eng k st = pre ++ Event.Write s :: post →
      lockWalk Held.free pre = some Held.exclusive) ∧
    (index st.regexMap k ≠ none →
      callEvents eng k st = [Event.RLock, Event.Read k, Event.RUnlock] ∧
      Event.Lock ∉ callEvents eng k st ∧ Event.Compile k ∉ callEvents eng k st) ∧
    (index st.regexMap k = none →
      callEvents eng k st = [Event.RLock, Event.Read k, Event.RUnlock, Event.Compile k,
        Event.Lock, Event.Write k, Event.Unlock]) := by
  have hshape : callEvents eng k st = [Event.RLock, Event.Read k, Event.RUnlock] ∧
        index st.regexMap k ≠ none ∨
      callEvents eng k st = [Event.RLock, Event.Read k, Event.RUnlock, Event.Compile k,
        Event.Lock, Event.Write k, Event.Unlock] ∧ index st.regexMap k = none := by
    cases hs : index st.regexMap k with
    | some r =>
      left
      simp [callEvents, getRegexpObject_hit eng k st r hs]
    | none =>
      right
      simp [callEvents, getRegexpObject_miss eng k st hs]
  have hwalk : lockWalk Held.free (callEvents eng k st) = some Held.free := by
    rcases hshape with ⟨h, _⟩ | ⟨h, _⟩ <;> rw [h] <;> rfl
  have htrace : (getRegexpObject eng k st).2.trace = st.trace ++ callEvents eng k st := by
    cases hs : index st.regexMap k with
    | some r => simp [callEvents, getRegexpObject_hit eng k st r hs]
    | none => simp [callEvents, getRegexpObject_miss eng k st hs]
  refine ⟨htrace, hwalk, ?_, ?_, ?_, ?_, ?_⟩
  · intro pre post s hsplit
    rw [hsplit] at hwalk
    exact lockWalk_before_read pre post s Held.free Held.free hwalk
  · intro pre post s hsplit
    rw [hsplit] at hwalk
    exact lockWalk_before_compile pre post s Held.free Held.free hwalk
  · intro pre post s hsplit
    rw [hsplit] at hwalk
    exact lockWalk_before_write pre post s Held.free Held.free hwalk
  · intro hne
    rcases hshape with ⟨h, _⟩ | ⟨_, h⟩
    · rw [h]
      simp
    · exact absurd h hne
  · intro hmiss
    rcases hshape with ⟨_, h⟩ | ⟨h, _⟩
    · exact absurd hmiss h
    · exact h

/-- C13 at a concrete input: the events of a miss on the empty cache and of the
hit that follows it. -/
theorem C13_locking_discipline_witness :
    index (State.init (Nat × String)).regexMap "ab" = none ∧
    callEvents demoEngine "ab" (State.init (Nat × String))
      = [Event.RLock, Event.Read "ab", Event.RUnlock, Event.Compile "ab",
          Event.Lock, Event.Write "ab", Event.Unlock] ∧
    index (getRegexpObject demoEngine "ab" (State.init (Nat × String))).2.regexMap "ab"
      ≠ none ∧
    callEvents demoEngine "ab" (getRegexpObject demoEngine "ab" (State.init (Nat × String))).2
      = [Event.RLock, Event.Read "ab", Event.RUnlock] :=
  ⟨by decide,
    (C13_locking_discipline demoEngine "ab" (State.init (Nat × String))).2.2.2.2.2.2
      (by decide),
    by decide,
    ((C13_locking_discipline demoEngine "ab"
      (getRegexpObject demoEngine "ab" (State.init (Nat × String))).2).2.2.2.2.2.1
      (by decide)).1⟩

/-! ## Concurrent calls -/

/-- C12: concurrent first-time calls.  `K ≥ 1` goroutines call
`getRegexpObject(p)` at once, for a pattern `p` the engine compiles and the map
does not hold.  In every interleaving (every schedule the lock permits, under
every policy of the lock towards waiting writers): no action is a fault, the
map is read only under the shared lock with no writer and written only under
the exclusive lock with no reader; unless all calls have returned, some
goroutine can act, a schedule has at most `8 * K` actions, and it can be run on
until all calls have returned; every call that has returned has returned an
object and a nil error; and once all have returned the map holds an object
under `p`, its keys are the old keys and `p`, one more than before, every
other entry is as it was, and the lock is free. -/
theorem C12_concurrent_miss {R E Rd : Type} (eng : Engine R E Rd) (pol : Conf R E → Bool)
    (K : Nat) (p : String) (st0 : State R) (sched : List Nat) (c : Conf R E)
    (hK : 1 ≤ K) (hvalid : ∀ n, ∃ r, eng.Compile n p = (some r, none))
    (hnew : st0.regexMap.lookup p = none)
    (hexec : exec eng pol K p sched (Conf.init E st0) = some c) :
    (∀ i, (stepThread eng pol K p i c).isFault = false) ∧
    (∀ i, i < K → (c.pc i).holdsShared = true → i ∈ c.readers ∧ c.writer = none) ∧
    (∀ i, i < K → (c.pc i).holdsExclusive = true → c.writer = some i ∧ c.readers = ∅) ∧
    ((∃ i, i < K ∧ (c.pc i).returned = false) →
      ∃ i c1, i < K ∧ stepThread eng pol K p i c = Outcome.next c1) ∧
    sched.length ≤ 8 * K ∧
    (∃ more cf, exec eng pol K p (sched ++ more) (Conf.init E st0) = some cf ∧
      ∀ i, i < K → (cf.pc i).returned = true) ∧
    (∀ i rex err, i < K → c.pc i = Pc.done rex err → (∃ r, rex = some r) ∧ err = none) ∧
    ((∀ i, i < K → (c.pc i).returned = true) →
      (∀ i, i < K → ∃ r, c.pc i = Pc.done (some r) none) ∧
      (∃ r, c.regexMap.lookup p = some (some r)) ∧
      c.regexMap.keys = insert p st0.regexMap.keys ∧
      c.regexMap.keys.card = st0.regexMap.keys.card + 1 ∧
      (∀ j, j ≠ p → c.regexMap.lookup j = st0.regexMap.lookup j) ∧
      c.readers = ∅ ∧ c.writer = none) := by
  have hinv : Inv K p st0 c :=
    inv_exec eng pol K p st0 hvalid sched _ c (inv_init K p st0) hexec
  refine ⟨stepThread_no_fault eng pol K p st0 c hinv, ?_, ?_, ?_, ?_, ?_, ?_, ?_⟩
  · intro i hi hs
    have hm : i ∈ c.readers := (hinv.readers_iff i).2 ⟨hi, hs⟩
    refine ⟨hm, ?_⟩
    by_contra hw
    have := hinv.excl hw
    rw [this] at hm
    simp at hm
  · intro i hi hx
    have hw : c.writer = some i := (hinv.writer_iff i).2 ⟨hi, hx⟩
    exact ⟨hw, hinv.excl (by rw [hw]; simp)⟩
  · intro hrun
    obtain ⟨i, hi, hnext⟩ := stepThread_progress eng pol K p st0 c hinv hrun
    obtain ⟨c1, hc1⟩ := (isNext_iff _).1 hnext
    exact ⟨i, c1, hi, hc1⟩
  · have := remaining_exec eng pol K p sched _ c hexec
    rw [remaining_init] at this
    omega
  · obtain ⟨more, cf, hex, hdone⟩ :=
      exec_completion eng pol K p st0 hvalid _ c (le_refl _) hinv
    exact ⟨more, cf, exec_append eng pol K p sched more _ c cf hexec hex, hdone⟩
  · intro i rex err hi hpc
    have hs := hinv.locals i hi
    simp only [hpc, Pc.sound, Bool.and_eq_true, Option.isSome_iff_exists,
      Option.isNone_iff_eq_none] at hs
    exact hs
  · intro hall
    obtain ⟨h1, h2, h3, h4, h5, h6⟩ := all_returned K p st0 c hinv hK hall
    refine ⟨h1, h2, h3, ?_, h4, h5, h6⟩
    rw [h3]
    apply Finset.card_insert_of_not_mem
    intro hp
    exact (Finmap.lookup_eq_none.1 hnew) (Finmap.mem_keys.1 hp)

/-- C12 at a concrete input: two goroutines resolve `"x"` on the empty cache; both
miss, both compile, the first stores before the second. -/
theorem C12_concurrent_miss_witness :
    ∃ c : Conf (Nat × String) String,
      exec demoEngine (fun _ => true) 2 "x" [0, 0, 0, 1, 1, 1, 0, 1, 0, 0, 1, 0, 0, 1, 1, 1]
        (Conf.init String (State.init (Nat × String))) = some c ∧
      (∀ i, i < 2 → ∃ r, c.pc i = Pc.done (some r) none) ∧
      (∃ r, c.regexMap.lookup "x" = some (some r)) ∧
      c.regexMap.keys.card = (State.init (Nat × String)).regexMap.keys.card + 1 :=
  have hexec : exec demoEngine (fun _ => true) 2 "x"
      [0, 0, 0, 1, 1, 1, 0, 1, 0, 0, 1, 0, 0, 1, 1, 1]
      (Conf.init String (State.init (Nat × String)))
      = some ((exec demoEngine (fun _ => true) 2 "x"
        [0, 0, 0, 1, 1, 1, 0, 1, 0, 0, 1, 0, 0, 1, 1, 1]
        (Conf.init String (State.init (Nat × String)))).getD
          (Conf.init String (State.init (Nat × String)))) :=
    eq_some_getD _ _ (by decide)
  have h := (C12_concurrent_miss demoEngine (fun _ => true) 2 "x" (State.init (Nat × String))
    [0, 0, 0, 1, 1, 1, 0, 1, 0, 0, 1, 0, 0, 1, 1, 1]
    ((exec demoEngine (fun _ => true) 2 "x" [0, 0, 0, 1, 1, 1, 0, 1, 0, 0, 1, 0, 0, 1, 1, 1]
      (Conf.init String (State.init (Nat × String)))).getD
        (Conf.init String (State.init (Nat × String))))
    (by decide) (fun n => ⟨(n, "x"), by simp [demoEngine]⟩) (by decide) hexec).2.2.2.2.2.2.2
    (by decide)
  ⟨_, hexec, h.1, h.2.1, h.2.2.2.1⟩

end EasyRegex
